/-
Verification of the encryption core of microcosm-postgres.

This file gives a shallow embedding, in Lean 4, of the field-level
encryption layer of the repository:

* `microcosm_postgres/encryption/v2/encoders.py` (value encoders),
* `microcosm_postgres/encryption/v2/column.py` (the `encryption` hybrid
  property: getter, setter, beacon comparator),
* `microcosm_postgres/encryption/v2/encryptors.py` (context-bound encryptors),
* `microcosm_postgres/encryption/registry.py` (key-registry parsing),
* `microcosm_postgres/encryption/v2/reencryption/{utils,stats}.py`
  (the reencryption engine and its statistics collector),

together with theorems about the behaviour that the documentation claims.

Modelling conventions:

* Python strings are modelled as `List Char` (`Str` below); Python `bytes`
  as `List Nat`.
* Fallible Python code (code that can raise) returns `Option`/`Except`.
* Python `json.dumps` / `json.loads` are modelled by an executable JSON
  printer and parser over a deep JSON value type whose numbers are
  integers; IEEE-754 floats are outside the model.
* Python `None` is modelled explicitly where the distinction matters
  (the `PyVal` dynamic value type used for the column state machine).
-/
import Mathlib

namespace MicrocosmPG

/-- Python strings, modelled as lists of unicode scalar values. -/
abbrev Str := List Char

/-- Python `bytes` values (ciphertexts), modelled as lists of naturals. -/
abbrev Bytes := List Nat

/-! ### Decimal digit strings

Machinery shared by `IntEncoder` (`str(value)` / `int(value)`), the JSON
number printer/parser backing `json.dumps` / `json.loads`, and the
zero-padded fields of `datetime.isoformat`. -/

/-- The character for a single decimal digit `d < 10` (Python `str(d)`). -/
def digitToChar (d : Nat) : Char := Char.ofNat (48 + d)

/-- Recognise an ASCII decimal digit. -/
def isDigitChar (c : Char) : Bool := 48 ≤ c.toNat && c.toNat ≤ 57

/-- Numeric value of an ASCII decimal digit character. -/
def charToDigit (c : Char) : Nat := c.toNat - 48

/-- Python `str(n)` for a non-negative integer: decimal digits, most
significant first, with `0` printed as `"0"`. -/
def natToChars (n : Nat) : Str :=
  if n = 0 then [digitToChar 0] else ((Nat.digits 10 n).map digitToChar).reverse

/-- Value of a string of decimal digit characters, most significant first
(the accumulator loop inside Python `int(s)`). -/
def charsToNat (s : Str) : Nat := s.foldl (fun acc c => 10 * acc + charToDigit c) 0

/-- Zero padding, as in Python `f"{n:02d}"`-style format fields. -/
def padZeros (w : Nat) (s : Str) : Str :=
  List.replicate (w - s.length) (digitToChar 0) ++ s

/-- Parse a non-empty all-digit string (the digit-run core of Python
`int(s)`); anything else is a `ValueError`, modelled as `none`. -/
def parseNatDigits (s : Str) : Option Nat :=
  if s = [] then none
  else if s.all isDigitChar then some (charsToNat s) else none

/-- Python `str(value)` on an `int` (the body of `IntEncoder.encode`). -/
def pyStrOfInt (i : Int) : Str :=
  if i < 0 then '-' :: natToChars i.natAbs else natToChars i.natAbs

/-- Python `int(value)` on a string (the body of `IntEncoder.decode`),
modelled on sign-prefixed decimal numerals; malformed input raises
`ValueError`, modelled as `none`. -/
def pyIntOfStr (s : Str) : Option Int :=
  match s with
  | [] => none
  | c :: rest =>
    if c = '-' then
      match parseNatDigits rest with
      | none => none
      | some n => some (-(n : Int))
    else if c = '+' then
      match parseNatDigits rest with
      | none => none
      | some n => some ((n : Int))
    else
      match parseNatDigits (c :: rest) with
      | none => none
      | some n => some ((n : Int))

/-! ### Key registry (`microcosm_postgres/encryption/registry.py`)

`parse_config` builds, for each context key, an entry with the `;`-split
key ids / account ids, the partition and the `restricted` flag;
`MultiTenantKeyRegistry.make_encryptor` then builds one tenant encryptor
per entry. -/

/-- Python `s.split(";")`: split at every occurrence of the separator;
the result is never empty, and `"".split(";") == [""]`. -/
def pySplitSemi (s : Str) : List Str :=
  match s with
  | [] => [[]]
  | c :: rest =>
    match pySplitSemi rest with
    | [] => [[]]
    | t :: ts => if c = ';' then [] :: t :: ts else (c :: t) :: ts

/-- A configuration cell for `key_ids`/`account_ids`: Python lets each be
either a raw string (split on `";"`) or an already-split sequence
(mirroring the `isinstance(key_id, str)` test in `parse_config`). -/
inductive StrOrList where
  | strVal (s : Str)
  | listVal (l : List Str)
deriving Repr, DecidableEq

/-- The `key_id.split(";") if isinstance(key_id, str) else key_id` branch
of `parse_config`. -/
def splitCell : StrOrList → List Str
  | .strVal s => pySplitSemi s
  | .listVal l => l

/-- One value of the mapping built by `parse_config`. -/
structure ContextData where
  key_ids : List Str
  account_ids : List Str
  partition : Str
  restricted : Bool
deriving Repr, DecidableEq

/-- The string `"true"` compared against `restricted_kms_policy[ix]`. -/
def trueStr : Str := ['t', 'r', 'u', 'e']

/-- The `"default"` key of `MultiTenantEncryptor` (`encryptor.py`). -/
def defaultKeyStr : Str := ['d', 'e', 'f', 'a', 'u', 'l', 't']

/-- `parse_config` from `registry.py`: a dict comprehension over
`enumerate(zip(context_keys, key_ids, account_ids, partitions))`
(`zip` truncates to the shortest input).  The dict is modelled as the
association list in comprehension order. -/
def parse_config (context_keys : List Str) (key_ids account_ids : List StrOrList)
    (partitions : List Str) (restricted_kms_policy : List Str) :
    List (Str × ContextData) :=
  (List.zip context_keys (List.zip key_ids (List.zip account_ids partitions))).enum.map
    (fun p =>
      (p.2.1,
        { key_ids := splitCell p.2.2.1
          account_ids := splitCell p.2.2.2.1
          partition := p.2.2.2.2
          restricted :=
            if h : p.1 < restricted_kms_policy.length then
              restricted_kms_policy[p.1] = trueStr
            else
              False }))

/-- The data `make_encryptor` hands to the key-provider configuration for
one tenant.  (`configure_encrypting_key_provider` and friends live in
`encryption/providers.py`, outside the embedded sources; the model keeps
exactly the arguments the registry passes to them.) -/
structure SingleTenantEncryptorCfg where
  enc_key_ids : List Str
  enc_restricted : Bool
  dec_account_ids : List Str
  dec_partition : Str
  dec_key_ids : List Str
deriving Repr, DecidableEq

/-- The router built by `MultiTenantKeyRegistry.make_encryptor`: a
`MultiTenantEncryptor` whose `encryptors` mapping has one entry per
registry key and whose `default_key` is `"default"`. -/
structure MultiTenantEncryptorModel where
  encryptors : List (Str × SingleTenantEncryptorCfg)
  default_key : Str
deriving Repr, DecidableEq

/-- `MultiTenantKeyRegistry.make_encryptor`: one `SingleTenantEncryptor`
per parsed registry entry, nothing else. -/
def make_encryptor (keys : List (Str × ContextData)) : MultiTenantEncryptorModel :=
  { encryptors := keys.map (fun p =>
      (p.1,
        { enc_key_ids := p.2.key_ids
          enc_restricted := p.2.restricted
          dec_account_ids := p.2.account_ids
          dec_partition := p.2.partition
          dec_key_ids := p.2.key_ids }))
    default_key := defaultKeyStr }

/-! ### The encryption column (`microcosm_postgres/encryption/v2/column.py`)

The `encryption` hybrid property binds an encoder and an encryptor to the
three physical slots `{key}_encrypted`, `{key}_unencrypted`,
`{key}_beacon`.  Python dynamic values are modelled by `PyVal`, with
`PyVal.none` playing the role of Python `None` (which is also SQL NULL
when stored in a slot). -/

/-- Python values flowing through the encryption column. -/
inductive PyVal where
  | none
  | str (s : Str)
  | int (i : Int)
  | list (xs : List PyVal)

/-- Exceptions that can escape the embedded code paths:
`aws_encryption_sdk.exceptions.DecryptKeyError`,
`AwsKmsEncryptor.EncryptorNotBound`, and encoder decode failures. -/
inductive PyErr where
  | decryptKeyError
  | encryptorNotBound
  | decodeError
deriving Repr, DecidableEq

/-- The three physical slots behind one `encryption` descriptor field. -/
structure FieldState where
  encrypted : Option Bytes
  unencrypted : PyVal
  beacon : Option Str

/-- Exactly one of the `encrypted`/`unencrypted` slots is non-null
(`PyVal.none` is SQL NULL for the unencrypted slot). -/
def FieldState.exactlyOneSlot (st : FieldState) : Prop :=
  (st.encrypted ≠ Option.none ∧ st.unencrypted = PyVal.none)
    ∨ (st.encrypted = Option.none ∧ st.unencrypted ≠ PyVal.none)

/-- The callables of the v2 `Encryptor` protocol used by `column.py`:
`encrypt` returns `None` when the value should not be encrypted,
`decrypt` may raise, and `beacon` is the keyed-hash callable invoked by
the setter (its implementation lives outside the embedded sources). -/
structure EncryptorFns where
  encrypt : Str → Option Bytes
  decrypt : Bytes → Except PyErr Str
  beacon : Str → Str

/-- The getter `_prop` of the `encryption` hybrid property
(`column.py` lines 138-144): if the encrypted slot is null, return the
unencrypted slot verbatim; otherwise decrypt and decode, with no
exception handler (decrypt and decode errors propagate). -/
def encryption.prop (decode : Str → Except PyErr PyVal) (enc : EncryptorFns)
    (st : FieldState) : Except PyErr PyVal :=
  match st.encrypted with
  | Option.none => Except.ok st.unencrypted
  | Option.some ct =>
    match enc.decrypt ct with
    | Except.error e => Except.error e
    | Except.ok plain => decode plain

/-- The setter `_prop_setter` of the `encryption` hybrid property
(`column.py` lines 146-159).  `hasBeaconField` mirrors
`hasattr(self, beacon_field)`; when the model has no beacon column the
beacon slot is left untouched. -/
def encryption.prop_setter (encode : PyVal → Str) (enc : EncryptorFns)
    (hasBeaconField : Bool) (st : FieldState) (value : PyVal) : FieldState :=
  let encoded := encode value
  match enc.encrypt encoded with
  | Option.none =>
    { st with
      unencrypted := value
      encrypted := Option.none
      beacon := if hasBeaconField then Option.none else st.beacon }
  | Option.some ct =>
    { st with
      encrypted := Option.some ct
      unencrypted := PyVal.none
      beacon := if hasBeaconField then Option.some (enc.beacon encoded) else st.beacon }

/-- A bound tenant encryptor as `AwsKmsEncryptor` sees it: the
`SingleTenantEncryptor` interface of `encryption/encryptor.py`
(`encrypt` returns ciphertext plus the key ids used; `decrypt` may raise
`DecryptKeyError`). -/
structure SingleTenantEncryptorFns where
  encrypt : Str → Str → Bytes × List Str
  decrypt : Str → Bytes → Except PyErr Str

/-- `AwsKmsEncryptor.encrypt` (`encryptors.py` lines 106-111): `None`
when no encryptor context is bound, otherwise the first component of the
tenant encryptor's result. -/
def awsKmsEncrypt (ctx : Option (Str × SingleTenantEncryptorFns)) (value : Str) :
    Option Bytes :=
  match ctx with
  | Option.none => Option.none
  | Option.some p => Option.some (p.2.encrypt p.1 value).1

/-- `AwsKmsEncryptor.decrypt` (`encryptors.py` lines 113-118): raises
`EncryptorNotBound` without a bound context, else delegates. -/
def awsKmsDecrypt (ctx : Option (Str × SingleTenantEncryptorFns)) (value : Bytes) :
    Except PyErr Str :=
  match ctx with
  | Option.none => Except.error PyErr.encryptorNotBound
  | Option.some p => p.2.decrypt p.1 value

/-- The `AwsKmsEncryptor` with no bound tenant context, as an
`EncryptorFns` record (the beacon callable is irrelevant on this path
and passed through as a parameter). -/
def noContextEncryptor (bfn : Str → Str) : EncryptorFns :=
  { encrypt := awsKmsEncrypt Option.none
    decrypt := awsKmsDecrypt Option.none
    beacon := bfn }

/-! ### Beacon comparator (`column.py` lines 25-88) -/

/-- The value side of a rendered SQL predicate: a column reference (the
comparator's stored clause elements) or a bound literal. -/
inductive SqlOperand where
  | col (name : Str)
  | lit (v : PyVal)
  | litStr (s : Str)

/-- The SQLAlchemy expressions produced by the comparator paths modelled
here: equality, `in_()`, and a unary application (e.g. `asc`/`desc`). -/
inductive SqlExpr where
  | eqE (l r : SqlOperand)
  | inE (l : SqlOperand) (rs : List SqlOperand)
  | unE (l : SqlOperand)

/-- The string `"test"` used as the comparator's trial plaintext. -/
def testStr : Str := ['t', 'e', 's', 't']

/-- `BeaconComparator`: `val` is the unencrypted column, `beacon_val` the
beacon column; the three callables are optional exactly as in the
constructor defaults. -/
structure BeaconComparatorModel where
  val : SqlOperand
  beacon_val : SqlOperand
  encoder_fn : Option (PyVal → Str)
  beacon_fn : Option (Str → Str)
  encrypt_fn : Option (Str → Option Bytes)

/-- `BeaconComparator._check_if_should_use_beacon`: `False` when no
`encrypt_fn` is stored, otherwise whether a trial encryption of the
string `"test"` returns non-`None`. -/
def BeaconComparatorModel.check_if_should_use_beacon (c : BeaconComparatorModel) :
    Bool :=
  match c.encrypt_fn with
  | Option.none => false
  | Option.some f => (f testStr).isSome

/-- `BeaconComparator._beaconise`: encode then hash.  Calling a missing
callable would be a Python `TypeError`, modelled as `none`; the embedded
construction sites always supply both callables. -/
def BeaconComparatorModel.beaconise (c : BeaconComparatorModel) (v : PyVal) :
    Option Str :=
  match c.encoder_fn, c.beacon_fn with
  | Option.some e, Option.some b => Option.some (b (e v))
  | _, _ => Option.none

/-- `BeaconComparator.__eq__`: beacon equality against the beaconised
literal when the trial encryption succeeds, else plain equality against
the unencrypted column. -/
def BeaconComparatorModel.eqExpr (c : BeaconComparatorModel) (other : PyVal) :
    Option SqlExpr :=
  if c.check_if_should_use_beacon then
    (c.beaconise other).map (fun b => SqlExpr.eqE c.beacon_val (SqlOperand.litStr b))
  else
    Option.some (SqlExpr.eqE c.val (SqlOperand.lit other))

/-- `BeaconComparator.operate` on `in_op`: beaconise each element of the
list when the trial encryption succeeds, else a plain `in_()` against the
unencrypted column. -/
def BeaconComparatorModel.inExpr (c : BeaconComparatorModel) (others : List PyVal) :
    Option SqlExpr :=
  if c.check_if_should_use_beacon then
    (others.mapM c.beaconise).map
      (fun bs => SqlExpr.inE c.beacon_val (bs.map SqlOperand.litStr))
  else
    Option.some (SqlExpr.inE c.val (others.map SqlOperand.lit))

/-- `BeaconComparator.operate` with no operand (e.g. `asc`/`desc`):
the op is applied to the beacon column when the trial encryption
succeeds, else to the unencrypted column. -/
def BeaconComparatorModel.unaryExpr (c : BeaconComparatorModel) : SqlExpr :=
  if c.check_if_should_use_beacon then SqlExpr.unE c.beacon_val
  else SqlExpr.unE c.val

/-! ### Reencryption engine
(`microcosm_postgres/encryption/v2/reencryption/utils.py` and `stats.py`)

`reencrypt_instance` walks an instance's encryption columns: it reads the
`_unencrypted` slot to classify the instance, and (unless `dry_run`)
re-assigns each encrypted column its own value (`set(get())`) and merges
and commits the session, once per column.  The statistics collector counts
one instance per `update` call. -/

/-- Python `value is None` on a slot value. -/
def PyVal.isNone : PyVal → Bool
  | PyVal.none => true
  | _ => false

/-- Everything the `encryption` descriptor of one column closes over. -/
structure FieldCfg where
  encode : PyVal → Str
  decode : Str → Except PyErr PyVal
  enc : EncryptorFns
  hasBeacon : Bool

/-- The session effects `reencrypt_instance` performs: counts of
`session.merge` and `session.commit` calls. -/
structure SessionLog where
  merges : Nat
  commits : Nat
deriving Repr, DecidableEq

/-- The outcome of `reencrypt_instance`: the returned
`(found_to_be_unencrypted, change_commited)` pair plus the final
instance state and session log. -/
structure ReencryptResult where
  found_to_be_unencrypted : Bool
  change_commited : Bool
  inst : Str → FieldState
  sess : SessionLog

/-- The `for column_name in encryption_columns` loop of
`reencrypt_instance`: classify by the `_unencrypted` slot, and when not a
dry run re-assign the column its own descriptor value (`set(get())`,
whose getter may raise), then merge and commit. -/
def reencryptLoop (cfg : Str → FieldCfg) (dry_run : Bool)
    (inst : Str → FieldState) (sess : SessionLog)
    (found committed : Bool) : List Str → Except PyErr ReencryptResult
  | [] =>
    Except.ok
      { found_to_be_unencrypted := found, change_commited := committed,
        inst := inst, sess := sess }
  | col :: rest =>
    let found' := found || !(inst col).unencrypted.isNone
    if dry_run then
      reencryptLoop cfg dry_run inst sess found' committed rest
    else
      match encryption.prop (cfg col).decode (cfg col).enc (inst col) with
      | Except.error e => Except.error e
      | Except.ok v =>
        let st' := encryption.prop_setter (cfg col).encode (cfg col).enc
          (cfg col).hasBeacon (inst col) v
        reencryptLoop cfg dry_run
          (fun c => if c = col then st' else inst c)
          { merges := sess.merges + 1, commits := sess.commits + 1 }
          found' true rest

/-- `reencrypt_instance` from `reencryption/utils.py`. -/
def reencrypt_instance (cfg : Str → FieldCfg) (cols : List Str)
    (dry_run : Bool) (inst : Str → FieldState) (sess : SessionLog) :
    Except PyErr ReencryptResult :=
  reencryptLoop cfg dry_run inst sess false false cols

/-- `ReencryptionStatsCollector`'s mutable counters (`stats.py`). -/
structure StatsCollector where
  instances_found_to_be_unencrypted : Nat
  instances_reencrypted : Nat
  total_instances_found : Nat
  model : Option Str
deriving Repr, DecidableEq

/-- A fresh `ReencryptionStatsCollector()`. -/
def StatsCollector.init : StatsCollector :=
  { instances_found_to_be_unencrypted := 0, instances_reencrypted := 0,
    total_instances_found := 0, model := Option.none }

/-- `ReencryptionStatsCollector.update` (`stats.py` lines 16-22). -/
def collectorUpdate (st : StatsCollector) (instName : Str)
    (found committed : Bool) : StatsCollector :=
  { instances_found_to_be_unencrypted :=
      st.instances_found_to_be_unencrypted + (if found then 1 else 0)
    instances_reencrypted := st.instances_reencrypted + (if committed then 1 else 0)
    total_instances_found := st.total_instances_found + 1
    model := match st.model with
      | Option.none => Option.some instName
      | Option.some m => Option.some m }

/-- The per-model instance loop of `ReencryptionCli.reencrypt`
(`reencryption/cli.py` lines 83-90): run `reencrypt_instance` on each
instance and feed the result to the statistics collector. -/
def runModelLoop (cfg : Str → FieldCfg) (cols : List Str) (dry_run : Bool)
    (sess : SessionLog) (collector : StatsCollector) :
    List (Str × (Str → FieldState)) → Except PyErr (StatsCollector × SessionLog)
  | [] => Except.ok (collector, sess)
  | (nm, inst) :: rest =>
    match reencrypt_instance cfg cols dry_run inst sess with
    | Except.error e => Except.error e
    | Except.ok r =>
      runModelLoop cfg cols dry_run r.sess
        (collectorUpdate collector nm r.found_to_be_unencrypted r.change_commited)
        rest

/-- A one-column demo configuration for exercising the reencryption
engine: identity-style codecs and an encryptor that always produces the
ciphertext `[1]` and decrypts everything to the empty string. -/
def reencryptDemoCfg : Str → FieldCfg := fun _ =>
  { encode := fun _ => []
    decode := fun s => Except.ok (PyVal.str s)
    enc :=
      { encrypt := fun _ => Option.some [1]
        decrypt := fun _ => Except.ok []
        beacon := fun s => s }
    hasBeacon := false }

/-- A demo instance whose single field is already encrypted. -/
def reencryptDemoInst : Str → FieldState := fun _ =>
  { encrypted := Option.some [9], unencrypted := PyVal.none, beacon := Option.none }

/-- The single encryption column of the demo model. -/
def reencryptDemoCols : List Str := [['n', 'a', 'm', 'e']]

/-- The result of running the demo reencryption (computed by the
definitions, asserted by `rfl` in the witness below). -/
def reencryptDemoResult : ReencryptResult :=
  { found_to_be_unencrypted := false
    change_commited := true
    inst := fun c =>
      if c = ['n', 'a', 'm', 'e'] then
        { encrypted := Option.some [1], unencrypted := PyVal.none,
          beacon := Option.none }
      else reencryptDemoInst c
    sess := { merges := 1, commits := 1 } }

/-! ### JSON (`json.dumps` / `json.loads`)

`encoders.py` serialises through the standard-library `json` module:
`ArrayEncoder` and `Nullable` dump lists of strings and `null`, and
`JSONEncoder` dumps arbitrary JSON values.  The model implements the
printer (`dumps` with its defaults: `ensure_ascii=True`, separators
`", "`/`": "`) and the parser (`loads`) over a deep JSON value type whose
numbers are integers — IEEE-754 floats are outside the model, so the
parser rejects fraction/exponent forms that Python would read as floats. -/

/-- JSON values (the float-free fragment of Python's `JSONType`). -/
inductive Json where
  | null
  | boolean (b : Bool)
  | int (n : Int)
  | str (s : Str)
  | arr (xs : List Json)
  | obj (fields : List (Str × Json))

/-- The `"{"` character, by code point. -/
def lbraceChar : Char := Char.ofNat 123

/-- The `"}"` character, by code point. -/
def rbraceChar : Char := Char.ofNat 125

/-- Lowercase hexadecimal digit for `n < 16` (as in Python's `"%04x"`). -/
def hexDigitChar (n : Nat) : Char :=
  if n < 10 then digitToChar n else Char.ofNat (87 + n)

/-- Four lowercase hex digits for `n < 65536` (`"\\u%04x"` payload). -/
def toHex4 (n : Nat) : Str :=
  [hexDigitChar (n / 4096 % 16), hexDigitChar (n / 256 % 16),
    hexDigitChar (n / 16 % 16), hexDigitChar (n % 16)]

/-- One character of `json.encoder.py_encode_basestring_ascii`: the
two-character escapes from `ESCAPE_DCT`, printable ASCII verbatim, and
`\uXXXX` (with a surrogate pair above `U+FFFF`) for everything else. -/
def escapeChar (c : Char) : Str :=
  if c = '"' then ['\\', '"']
  else if c = '\\' then ['\\', '\\']
  else if c = '\n' then ['\\', 'n']
  else if c = '\r' then ['\\', 'r']
  else if c = '\t' then ['\\', 't']
  else if c.toNat = 8 then ['\\', 'b']
  else if c.toNat = 12 then ['\\', 'f']
  else if 32 ≤ c.toNat ∧ c.toNat ≤ 126 then [c]
  else if c.toNat < 65536 then '\\' :: 'u' :: toHex4 c.toNat
  else
    ('\\' :: 'u' :: toHex4 (55296 + (c.toNat - 65536) / 1024))
      ++ ('\\' :: 'u' :: toHex4 (56320 + (c.toNat - 65536) % 1024))

/-- `json.dumps` of a string: quote, escape each character, quote. -/
def encodeStringPy (s : Str) : Str :=
  '"' :: (s.map escapeChar).flatten ++ ['"']

/-- Python `sep.join(parts)`. -/
def joinSep (sep : Str) : List Str → Str
  | [] => []
  | [x] => x
  | x :: y :: rest => x ++ sep ++ joinSep sep (y :: rest)

mutual

/-- `json.dumps` with its defaults (separators `", "` and `": "`,
`ensure_ascii=True`). -/
def pyJsonDumps : Json → Str
  | Json.null => ['n', 'u', 'l', 'l']
  | Json.boolean true => ['t', 'r', 'u', 'e']
  | Json.boolean false => ['f', 'a', 'l', 's', 'e']
  | Json.int n => pyStrOfInt n
  | Json.str s => encodeStringPy s
  | Json.arr xs => '[' :: joinSep [',', ' '] (dumpsArr xs) ++ [']']
  | Json.obj fs => lbraceChar :: joinSep [',', ' '] (dumpsObj fs) ++ [rbraceChar]

/-- The serialised items of a JSON array. -/
def dumpsArr : List Json → List Str
  | [] => []
  | x :: rest => pyJsonDumps x :: dumpsArr rest

/-- The serialised `"key": value` items of a JSON object. -/
def dumpsObj : List (Str × Json) → List Str
  | [] => []
  | kv :: rest =>
    (encodeStringPy kv.1 ++ ':' :: ' ' :: pyJsonDumps kv.2) :: dumpsObj rest

end

/-- JSON whitespace as skipped by `json.loads`. -/
def isJsonWs (c : Char) : Bool :=
  c = ' ' || c = '\t' || c = '\n' || c = '\r'

/-- Drop leading JSON whitespace. -/
def skipWs : Str → Str
  | [] => []
  | c :: rest => if isJsonWs c then skipWs rest else c :: rest

/-- Value of one hexadecimal digit (either case), as accepted after
`\u` by the `json` scanner. -/
def hexVal (c : Char) : Option Nat :=
  if 48 ≤ c.toNat ∧ c.toNat ≤ 57 then Option.some (c.toNat - 48)
  else if 97 ≤ c.toNat ∧ c.toNat ≤ 102 then Option.some (c.toNat - 87)
  else if 65 ≤ c.toNat ∧ c.toNat ≤ 70 then Option.some (c.toNat - 55)
  else Option.none

/-- A unicode scalar value from a code point; code points that are not
scalar values (lone surrogates) have no `Char` and yield `none`. -/
def charFromCode (n : Nat) : Option Char :=
  if n.isValidChar then Option.some (Char.ofNat n) else Option.none

/-- Four hexadecimal digits (the `XXXX` of a `\\uXXXX` escape). -/
def parseHex4 : Str → Option (Nat × Str)
  | a :: b :: c :: d :: rest =>
    (match hexVal a, hexVal b, hexVal c, hexVal d with
      | Option.some va, Option.some vb, Option.some vc, Option.some vd =>
        Option.some (((va * 16 + vb) * 16 + vc) * 16 + vd, rest)
      | _, _, _, _ => Option.none)
  | _ => Option.none

/-- One escape sequence after a backslash
(`json.decoder.py_scanstring`): the two-character escapes, and `\\uXXXX`
with surrogate-pair recombination.  Returns the decoded character and the
remaining input. -/
def parseEscape : Str → Option (Char × Str)
  | [] => Option.none
  | e :: rest =>
    if e = 'u' then
      match parseHex4 rest with
      | Option.none => Option.none
      | Option.some (n1, rest2) =>
        if 55296 ≤ n1 ∧ n1 ≤ 56319 then
          match rest2 with
          | s1 :: u1 :: rest3 =>
            (if s1 = '\\' ∧ u1 = 'u' then
              match parseHex4 rest3 with
              | Option.none => Option.none
              | Option.some (n2, rest4) =>
                if 56320 ≤ n2 ∧ n2 ≤ 57343 then
                  (charFromCode (65536 + (n1 - 55296) * 1024 + (n2 - 56320))).map
                    (fun ch => (ch, rest4))
                else Option.none
            else Option.none)
          | _ => Option.none
        else
          (charFromCode n1).map (fun ch => (ch, rest2))
    else
      (if e = '"' then Option.some '"'
        else if e = '\\' then Option.some '\\'
        else if e = '/' then Option.some '/'
        else if e = 'b' then Option.some (Char.ofNat 8)
        else if e = 'f' then Option.some (Char.ofNat 12)
        else if e = 'n' then Option.some '\n'
        else if e = 'r' then Option.some '\r'
        else if e = 't' then Option.some '\t'
        else Option.none).map (fun ch => (ch, rest))

/-- The body of a JSON string after the opening quote
(`json.decoder.py_scanstring`), fuelled by the number of decoded
characters: literal characters, and escapes via `parseEscape`.  Returns
the decoded string and the input remaining after the closing quote. -/
def parseJStringBody : Nat → Str → Option (Str × Str)
  | 0, _ => Option.none
  | fuel + 1, s =>
    match s with
    | [] => Option.none
    | c :: rest =>
      if c = '"' then Option.some ([], rest)
      else if c = '\\' then
        match parseEscape rest with
        | Option.none => Option.none
        | Option.some (ch, r) =>
          (parseJStringBody fuel r).map (fun p => (ch :: p.1, p.2))
      else
        (parseJStringBody fuel rest).map (fun p => (c :: p.1, p.2))
termination_by structural fuel _ => fuel

def takeDigits : Str → Str × Str
  | [] => ([], [])
  | c :: rest =>
    if isDigitChar c then
      ((takeDigits rest).1.cons c, (takeDigits rest).2)
    else ([], c :: rest)

/-- The integer production of the `json` scanner's `NUMBER_RE`
(`-? (0 | [1-9][0-9]*)`); a following fraction or exponent would make a
Python float, which is outside the model, so it is rejected here. -/
def parseJNumber (s : Str) : Option (Int × Str) :=
  let (neg, s1) := match s with
    | c :: rest => if c = '-' then (true, rest) else (false, s)
    | [] => (false, s)
  match takeDigits s1 with
  | ([], _) => Option.none
  | (d :: ds, rest) =>
    if d = '0' ∧ ds ≠ [] then Option.none
    else
      match rest with
      | c :: _ =>
        if c = '.' ∨ c = 'e' ∨ c = 'E' then Option.none
        else
          Option.some
            (if neg then -(charsToNat (d :: ds) : Int) else (charsToNat (d :: ds) : Int),
              rest)
      | [] =>
        Option.some
          (if neg then -(charsToNat (d :: ds) : Int) else (charsToNat (d :: ds) : Int),
            rest)

/-- Three fixed literal characters (the tail of `true`/`null`) followed by
the rest of the input; on success yields the given value. -/
def parseLit3 (a b c : Char) (v : Json) : Str → Option (Json × Str)
  | r1 :: r2 :: r3 :: rest =>
    if r1 = a ∧ r2 = b ∧ r3 = c then Option.some (v, rest) else Option.none
  | _ => Option.none

/-- Four fixed literal characters (the tail of `false`) followed by the
rest of the input; on success yields the given value. -/
def parseLit4 (a b c d : Char) (v : Json) : Str → Option (Json × Str)
  | r1 :: r2 :: r3 :: r4 :: rest =>
    if r1 = a ∧ r2 = b ∧ r3 = c ∧ r4 = d then Option.some (v, rest)
    else Option.none
  | _ => Option.none

mutual

/-- One JSON value (`json.scanner`), fuelled: literals, strings, numbers,
arrays and objects.  Returns the value and the remaining input. -/
def parseJValue : Nat → Str → Option (Json × Str)
  | 0, _ => Option.none
  | fuel + 1, s =>
    match s with
    | [] => Option.none
    | c :: rest =>
      if c = '"' then
        (parseJStringBody fuel rest).map (fun p => (Json.str p.1, p.2))
      else if c = '[' then
        match skipWs rest with
        | [] => Option.none
        | c2 :: rest2 =>
          if c2 = ']' then Option.some (Json.arr [], rest2)
          else (parseJArrElems fuel (c2 :: rest2)).map
            (fun p => (Json.arr p.1, p.2))
      else if c = lbraceChar then
        match skipWs rest with
        | [] => Option.none
        | c2 :: rest2 =>
          if c2 = rbraceChar then Option.some (Json.obj [], rest2)
          else (parseJObjItems fuel (c2 :: rest2)).map
            (fun p => (Json.obj p.1, p.2))
      else if c = 't' then
        parseLit3 'r' 'u' 'e' (Json.boolean true) rest
      else if c = 'f' then
        parseLit4 'a' 'l' 's' 'e' (Json.boolean false) rest
      else if c = 'n' then
        parseLit3 'u' 'l' 'l' Json.null rest
      else
        (parseJNumber (c :: rest)).map (fun p => (Json.int p.1, p.2))

/-- The elements of a non-empty JSON array, positioned at the first
element; consumes through the closing `]`. -/
def parseJArrElems : Nat → Str → Option (List Json × Str)
  | 0, _ => Option.none
  | fuel + 1, s =>
    match parseJValue fuel s with
    | Option.none => Option.none
    | Option.some (v, r) =>
      match skipWs r with
      | c :: r2 =>
        if c = ']' then Option.some ([v], r2)
        else if c = ',' then
          match parseJArrElems fuel (skipWs r2) with
          | Option.none => Option.none
          | Option.some (vs, r3) => Option.some (v :: vs, r3)
        else Option.none
      | [] => Option.none

/-- The members of a non-empty JSON object, positioned at the first key;
consumes through the closing brace. -/
def parseJObjItems : Nat → Str → Option (List (Str × Json) × Str)
  | 0, _ => Option.none
  | fuel + 1, s =>
    match s with
    | c0 :: rest =>
      if c0 = '"' then
        match parseJStringBody fuel rest with
        | Option.none => Option.none
        | Option.some (k, r) =>
          match skipWs r with
          | c1 :: r2 =>
            if c1 = ':' then
              match parseJValue fuel (skipWs r2) with
              | Option.none => Option.none
              | Option.some (v, r3) =>
                match skipWs r3 with
                | c :: r4 =>
                  if c = ',' then
                    match parseJObjItems fuel (skipWs r4) with
                    | Option.none => Option.none
                    | Option.some (kvs, r5) => Option.some ((k, v) :: kvs, r5)
                  else if c = rbraceChar then Option.some ([(k, v)], r4)
                  else Option.none
                | [] => Option.none
            else Option.none
          | [] => Option.none
      else Option.none
    | [] => Option.none

end

/-- `json.loads`: skip surrounding whitespace, parse one value, require
the input to be exhausted. -/
def pyJsonLoads (s : Str) : Option Json :=
  let t := skipWs s
  match parseJValue (t.length + 1) t with
  | Option.some (v, rest) =>
    if skipWs rest = [] then Option.some v else Option.none
  | Option.none => Option.none

/-- A legal continuation after a serialised number: end of input or a
character that neither extends the digit run nor starts a fraction or
exponent (in `json.dumps` output this is `,`, `]`, `}` or nothing). -/
def numBoundary (rest : Str) : Prop :=
  rest = [] ∨ ∃ c r, rest = c :: r ∧ isDigitChar c = false
    ∧ c ≠ '.' ∧ c ≠ 'e' ∧ c ≠ 'E'

mutual

/-- Parser fuel sufficient for one serialised value (proved against the
adequacy theorem below). -/
def jsonFuel : Json → Nat
  | Json.null => 1
  | Json.boolean _ => 1
  | Json.int _ => 1
  | Json.str s => s.length + 2
  | Json.arr xs => 1 + arrFuel xs
  | Json.obj fs => 1 + objFuel fs

/-- Fuel for the elements of an array. -/
def arrFuel : List Json → Nat
  | [] => 0
  | x :: rest => 1 + jsonFuel x + arrFuel rest

/-- Fuel for the members of an object. -/
def objFuel : List (Str × Json) → Nat
  | [] => 0
  | kv :: rest => 2 + kv.1.length + jsonFuel kv.2 + objFuel rest

end

/-! ### `DecimalEncoder` (`encoders.py` lines 54-61)

`encode` is Python `str(value)` on a `decimal.Decimal`; `decode` is the
`Decimal(value)` constructor.  Finite decimals are triples
`(sign, coefficient digits, exponent)` as in `Decimal.as_tuple()`; the
printer follows `_pydecimal.Decimal.__str__` (the spec's
*to-scientific-string*) and the parser follows the numeric-string branch
of `_pydecimal.Decimal.__new__`. -/

/-- A finite Python `Decimal` as `(sign, coefficient digits, exponent)`
(`decimal.Decimal.as_tuple`). -/
structure PyDecimal where
  sign : Bool
  digits : List Nat
  exp : Int
deriving DecidableEq

/-- The shapes `Decimal.as_tuple` can actually produce: a non-empty digit
string below 10 whose leading digit is only zero for the single-digit
coefficient `0`. -/
def PyDecimal.valid (d : PyDecimal) : Prop :=
  d.digits ≠ [] ∧ (∀ k ∈ d.digits, k < 10)
    ∧ (d.digits.head? = Option.some 0 → d.digits = [0])

/-- Where `Decimal.__str__` places the decimal point: at `exp + len`
digits from the left in positional notation, after one digit in
scientific notation. -/
def decimalDotplace (d : PyDecimal) : Int :=
  if d.exp ≤ 0 ∧ -6 < d.exp + (d.digits.length : Int) then
    d.exp + (d.digits.length : Int)
  else 1

/-- The digits-and-point part of `Decimal.__str__`. -/
def decimalBody (d : PyDecimal) : Str :=
  if decimalDotplace d ≤ 0 then
    '0' :: '.' :: (List.replicate (-decimalDotplace d).toNat '0'
      ++ d.digits.map digitToChar)
  else if (d.digits.length : Int) ≤ decimalDotplace d then
    d.digits.map digitToChar
      ++ List.replicate (decimalDotplace d - (d.digits.length : Int)).toNat '0'
  else
    (d.digits.map digitToChar).take (decimalDotplace d).toNat
      ++ '.' :: (d.digits.map digitToChar).drop (decimalDotplace d).toNat

/-- Python `"%+d"`: the exponent digits with an explicit sign. -/
def expChars (e : Int) : Str :=
  if e < 0 then '-' :: natToChars e.natAbs else '+' :: natToChars e.natAbs

/-- The exponent part of `Decimal.__str__` (capitals default). -/
def decimalExppart (d : PyDecimal) : Str :=
  if d.exp + (d.digits.length : Int) = decimalDotplace d then []
  else 'E' :: expChars (d.exp + (d.digits.length : Int) - decimalDotplace d)

/-- `Decimal.__str__` for finite values. -/
def decimalStr (d : PyDecimal) : Str :=
  (if d.sign then ['-'] else []) ++ decimalBody d ++ decimalExppart d

/-- Leading zeros stripped from a digit list, as by `int()` inside
`Decimal.__new__`. -/
def stripZeros : List Nat → List Nat
  | [] => []
  | k :: r => if k = 0 then stripZeros r else k :: r

/-- `Decimal.__new__` assembling the triple from the matched parts:
`self._int = str(int(intpart + fracpart))`,
`self._exp = exp - len(fracpart)`. -/
def mkDecimal (sg : Bool) (ipart fpart : Str) (e : Int) : PyDecimal :=
  let digs := stripZeros ((ipart ++ fpart).map charToDigit)
  { sign := sg
    digits := if digs = [] then [0] else digs
    exp := e - (fpart.length : Int) }

/-- The exponent digits after `e`/`E` and an optional sign: at least one
digit, and nothing may follow. -/
def parseDecimalExpDigits (sg : Bool) (ipart fpart : Str) (esign : Bool)
    (s : Str) : Option PyDecimal :=
  match takeDigits s with
  | (e1 :: eds, r) =>
    if r = [] then
      Option.some (mkDecimal sg ipart fpart
        (if esign then -(charsToNat (e1 :: eds) : Int)
          else (charsToNat (e1 :: eds) : Int)))
    else Option.none
  | ([], _) => Option.none

/-- The optional sign of the exponent. -/
def parseDecimalExpSign (sg : Bool) (ipart fpart : Str) : Str → Option PyDecimal
  | [] => Option.none
  | c :: r =>
    if c = '-' then parseDecimalExpDigits sg ipart fpart true r
    else if c = '+' then parseDecimalExpDigits sg ipart fpart false r
    else parseDecimalExpDigits sg ipart fpart false (c :: r)

/-- After the coefficient: end of input, or an exponent marker. -/
def parseDecimalTail (sg : Bool) (ipart fpart : Str) : Str → Option PyDecimal
  | [] => Option.some (mkDecimal sg ipart fpart 0)
  | c :: r =>
    if c = 'e' ∨ c = 'E' then parseDecimalExpSign sg ipart fpart r
    else Option.none

/-- After the integer digits: an optional fraction (requiring at least
one digit somewhere in the coefficient), then the tail. -/
def parseDecimalAfterInt (sg : Bool) (ipart : Str) : Str → Option PyDecimal
  | [] => if ipart = [] then Option.none else parseDecimalTail sg ipart [] []
  | c :: r =>
    if c = '.' then
      match takeDigits r with
      | (fpart, r2) =>
        if ipart = [] ∧ fpart = [] then Option.none
        else parseDecimalTail sg ipart fpart r2
    else if ipart = [] then Option.none
    else parseDecimalTail sg ipart [] (c :: r)

/-- The coefficient and tail after the optional sign. -/
def parseDecimalBody (sg : Bool) (s : Str) : Option PyDecimal :=
  match takeDigits s with
  | (ipart, r) => parseDecimalAfterInt sg ipart r

/-- The numeric-string branch of `Decimal.__new__`. -/
def parseDecimal : Str → Option PyDecimal
  | [] => Option.none
  | c :: r =>
    if c = '-' then parseDecimalBody true r
    else if c = '+' then parseDecimalBody false r
    else parseDecimalBody false (c :: r)

/-- `DecimalEncoder.encode` is `str(value)`. -/
def DecimalEncoder.encode (value : PyDecimal) : Str := decimalStr value

/-- `DecimalEncoder.decode` is `Decimal(value)`. -/
def DecimalEncoder.decode (value : Str) : Option PyDecimal := parseDecimal value

/-! ### `DatetimeEncoder` (`encoders.py` lines 64-71)

`encode` is `value.isoformat()`; `decode` is
`datetime.fromisoformat(value)`.  Datetimes are modelled with their seven
components and an optional UTC offset in whole minutes; the parser
mirrors the fixed-width fields of the ISO format emitted by `isoformat`
(microseconds printed as six digits when non-zero, offsets as
`±HH:MM`) and the range validation of the `datetime` constructor. -/

/-- A Python `datetime`, with `offset` the `utcoffset()` in minutes
(`None` for a naive datetime). -/
structure PyDatetime where
  year : Nat
  month : Nat
  day : Nat
  hour : Nat
  minute : Nat
  second : Nat
  microsecond : Nat
  offset : Option Int
deriving DecidableEq

/-- Gregorian leap year (`calendar.isleap`). -/
def isLeapYear (y : Nat) : Bool :=
  decide (y % 4 = 0 ∧ (¬y % 100 = 0 ∨ y % 400 = 0))

/-- Days in a month (`calendar.monthrange`). -/
def daysInMonth (y m : Nat) : Nat :=
  if m = 2 then (if isLeapYear y then 29 else 28)
  else if m = 4 ∨ m = 6 ∨ m = 9 ∨ m = 11 then 30
  else 31

/-- The argument ranges accepted by the `datetime` constructor, plus the
`timezone` bound on offsets. -/
def PyDatetime.valid (dt : PyDatetime) : Prop :=
  1 ≤ dt.year ∧ dt.year ≤ 9999 ∧ 1 ≤ dt.month ∧ dt.month ≤ 12
    ∧ 1 ≤ dt.day ∧ dt.day ≤ daysInMonth dt.year dt.month
    ∧ dt.hour ≤ 23 ∧ dt.minute ≤ 59 ∧ dt.second ≤ 59
    ∧ dt.microsecond ≤ 999999
    ∧ (∀ o, dt.offset = Option.some o → o.natAbs < 1440)

/-- A number zero-padded to a fixed width (`"%02d"`, `"%04d"`,
`"%06d"`). -/
def padNat (w n : Nat) : Str := padZeros w (natToChars n)

/-- The `±HH:MM` rendering of a UTC offset inside `isoformat`. -/
def isoOffset (o : Int) : Str :=
  (if o < 0 then '-' else '+')
    :: (padNat 2 (o.natAbs / 60) ++ ':' :: padNat 2 (o.natAbs % 60))

/-- The offset field of `isoformat`: empty for a naive datetime. -/
def isoOffsetOpt : Option Int → Str
  | Option.none => []
  | Option.some o => isoOffset o

/-- `datetime.isoformat()` with its defaults (separator `T`, timespec
`auto`). -/
def isoformat (dt : PyDatetime) : Str :=
  padNat 4 dt.year ++ '-' :: (padNat 2 dt.month ++ '-' :: (padNat 2 dt.day
    ++ 'T' :: (padNat 2 dt.hour ++ ':' :: (padNat 2 dt.minute
      ++ ':' :: (padNat 2 dt.second
        ++ ((if dt.microsecond = 0 then [] else '.' :: padNat 6 dt.microsecond)
          ++ isoOffsetOpt dt.offset))))))

/-- Exactly `k` decimal digit characters from the front of the input. -/
def grabDigits : Nat → Str → Option (Str × Str)
  | 0, s => Option.some ([], s)
  | _ + 1, [] => Option.none
  | k + 1, c :: r =>
    if isDigitChar c then (grabDigits k r).map (fun p => (c :: p.1, p.2))
    else Option.none

/-- One required separator character. -/
def expectChar (c : Char) : Str → Option Str
  | [] => Option.none
  | c2 :: r => if c2 = c then Option.some r else Option.none

/-- The optional fractional-seconds field: a point followed by the six
digits `isoformat` emits, or nothing. -/
def parseMicro : Str → Option (Nat × Str)
  | [] => Option.some (0, [])
  | c :: r =>
    if c = '.' then
      (grabDigits 6 r).map (fun ff => (charsToNat ff.1, ff.2))
    else Option.some (0, c :: r)

/-- The optional `±HH:MM` offset field, validated as by
`datetime.timezone`. -/
def parseIsoOffset : Str → Option (Option Int)
  | [] => Option.some Option.none
  | c :: r =>
    if c = '+' ∨ c = '-' then
      (grabDigits 2 r).bind (fun hh =>
        (expectChar ':' hh.2).bind (fun r3 =>
          (grabDigits 2 r3).bind (fun mm =>
            if mm.2 = [] ∧ charsToNat mm.1 < 60
                ∧ charsToNat hh.1 * 60 + charsToNat mm.1 < 1440 then
              Option.some (Option.some
                (if c = '-' then
                  -((charsToNat hh.1 * 60 + charsToNat mm.1 : Nat) : Int)
                else ((charsToNat hh.1 * 60 + charsToNat mm.1 : Nat) : Int)))
            else Option.none)))
    else Option.none

/-- The `datetime` constructor's range validation. -/
def mkDatetime (y mo d h mi s us : Nat) (off : Option Int) :
    Option PyDatetime :=
  if 1 ≤ y ∧ y ≤ 9999 ∧ 1 ≤ mo ∧ mo ≤ 12 ∧ 1 ≤ d ∧ d ≤ daysInMonth y mo
      ∧ h ≤ 23 ∧ mi ≤ 59 ∧ s ≤ 59 ∧ us ≤ 999999 then
    Option.some
      { year := y, month := mo, day := d, hour := h, minute := mi,
        second := s, microsecond := us, offset := off }
  else Option.none

/-- `datetime.fromisoformat` on the strings `isoformat` emits. -/
def fromisoformat (s : Str) : Option PyDatetime :=
  (grabDigits 4 s).bind (fun py =>
    (expectChar '-' py.2).bind (fun r2 =>
      (grabDigits 2 r2).bind (fun pmo =>
        (expectChar '-' pmo.2).bind (fun r4 =>
          (grabDigits 2 r4).bind (fun pd =>
            (expectChar 'T' pd.2).bind (fun r6 =>
              (grabDigits 2 r6).bind (fun ph =>
                (expectChar ':' ph.2).bind (fun r8 =>
                  (grabDigits 2 r8).bind (fun pmi =>
                    (expectChar ':' pmi.2).bind (fun r10 =>
                      (grabDigits 2 r10).bind (fun ps =>
                        (parseMicro ps.2).bind (fun pus =>
                          (parseIsoOffset pus.2).bind (fun off =>
                            mkDatetime (charsToNat py.1) (charsToNat pmo.1)
                              (charsToNat pd.1) (charsToNat ph.1)
                              (charsToNat pmi.1) (charsToNat ps.1)
                              pus.1 off)))))))))))))

/-- `DatetimeEncoder.encode` is `value.isoformat()`. -/
def DatetimeEncoder.encode (value : PyDatetime) : Str := isoformat value

/-- `DatetimeEncoder.decode` is `datetime.fromisoformat(value)`. -/
def DatetimeEncoder.decode (value : Str) : Option PyDatetime :=
  fromisoformat value

/-! ### The remaining encoders (`encoders.py` lines 34-133) -/

/-- `StringEncoder.encode` is the identity. -/
def StringEncoder.encode (value : Str) : Str := value

/-- `StringEncoder.decode` is the identity. -/
def StringEncoder.decode (value : Str) : Str := value

/-- `IntEncoder.encode` is `str(value)`. -/
def IntEncoder.encode (value : Int) : Str := pyStrOfInt value

/-- `IntEncoder.decode` is `int(value)`. -/
def IntEncoder.decode (value : Str) : Option Int := pyIntOfStr value

/-- `JSONEncoder.encode` is `json.dumps(value)`. -/
def JSONEncoder.encode (value : Json) : Str := pyJsonDumps value

/-- `JSONEncoder.decode` is `json.loads(value)`. -/
def JSONEncoder.decode (value : Str) : Option Json := pyJsonLoads value

/-- `EnumEncoder.encode` is `value.name`; members are identified with
their unique names. -/
def EnumEncoder.encode (value : Str) : Str := value

/-- `EnumEncoder.decode` is the lookup `self._enum[value]`; a name not in
the enum raises `KeyError`. -/
def EnumEncoder.decode (names : List Str) (value : Str) : Option Str :=
  if value ∈ names then Option.some value else Option.none

/-- `Nullable.encode`: `json.dumps(None)` for `None`, otherwise
`json.dumps` of the inner encoding. -/
def Nullable.encode {α : Type} (inner : α → Str) : Option α → Str
  | Option.none => pyJsonDumps Json.null
  | Option.some x => pyJsonDumps (Json.str (inner x))

/-- `Nullable.decode`: `json.loads`, then `None` stays `None` and any
other loaded (string) value goes through the inner decoder. -/
def Nullable.decode {α : Type} (inner : Str → Option α) (value : Str) :
    Option (Option α) :=
  match pyJsonLoads value with
  | Option.some Json.null => Option.some Option.none
  | Option.some (Json.str t) => (inner t).map Option.some
  | _ => Option.none

/-- `ArrayEncoder.encode`: `json.dumps` of the element-wise encodings. -/
def ArrayEncoder.encode {α : Type} (element : α → Str) (value : List α) :
    Str :=
  pyJsonDumps (Json.arr (value.map (fun x => Json.str (element x))))

/-- One loaded array element handed to the element decoder (a non-string
element would be a `TypeError` inside the element decoder). -/
def ArrayEncoder.decodeElem {α : Type} (inner : Str → Option α) :
    Json → Option α
  | Json.str t => inner t
  | _ => Option.none

/-- `ArrayEncoder.decode`: `json.loads`, then the element decoder on
each element of the loaded list. -/
def ArrayEncoder.decode {α : Type} (element : Str → Option α) (value : Str) :
    Option (List α) :=
  match pyJsonLoads value with
  | Option.some (Json.arr vs) => vs.mapM (ArrayEncoder.decodeElem element)
  | _ => Option.none

/-- C2 (amended): after a write, the encrypted slot alone is non-null
whenever the encryptor returned ciphertext; otherwise the encrypted slot
is null and the unencrypted slot holds exactly the written value — which
is non-null only when the value itself is not `None`.  Exactly-one-slot
mutual exclusivity therefore holds for every write except a `None` value
written without encryption, where both slots end up null. -/
theorem C2_setter_slot_exclusivity_amended
    (encode : PyVal → Str) (enc : EncryptorFns) (hasB : Bool)
    (st : FieldState) (value : PyVal) :
    (∀ ct, enc.encrypt (encode value) = Option.some ct →
        (encryption.prop_setter encode enc hasB st value).encrypted = Option.some ct
          ∧ (encryption.prop_setter encode enc hasB st value).unencrypted = PyVal.none)
      ∧ (enc.encrypt (encode value) = Option.none →
          (encryption.prop_setter encode enc hasB st value).encrypted = Option.none
            ∧ (encryption.prop_setter encode enc hasB st value).unencrypted = value)
      ∧ (enc.encrypt (encode value) ≠ Option.none ∨ value ≠ PyVal.none →
          (encryption.prop_setter encode enc hasB st value).exactlyOneSlot)
      ∧ (enc.encrypt (encode value) = Option.none ∧ value = PyVal.none →
          (encryption.prop_setter encode enc hasB st value).encrypted = Option.none
            ∧ (encryption.prop_setter encode enc hasB st value).unencrypted
                = PyVal.none) := by
  rcases henc : enc.encrypt (encode value) with _ | ct
  · refine ⟨fun ct2 hct => Option.noConfusion hct, ?_, ?_, ?_⟩
    · intro _
      constructor <;> simp [encryption.prop_setter, henc]
    · rintro (h | h)
      · exact absurd rfl h
      · right
        constructor <;> simp [encryption.prop_setter, henc, h]
    · rintro ⟨-, rfl⟩
      constructor <;> simp [encryption.prop_setter, henc]
  · refine ⟨?_, fun h => Option.noConfusion h, ?_, ?_⟩
    · intro ct2 hct
      cases hct
      constructor <;> simp [encryption.prop_setter, henc]
    · intro _
      left
      constructor <;> simp [encryption.prop_setter, henc]
    · rintro ⟨h, -⟩
      exact Option.noConfusion h

/-- Witness for C2 (amended) at a concrete field: an encryptor that
produces ciphertext `[1]`, written value `"foo"`. -/
theorem C2_setter_slot_exclusivity_amended_witness :
    (encryption.prop_setter (fun _ => [])
        { encrypt := fun _ => Option.some [1]
          decrypt := fun _ => Except.error PyErr.decryptKeyError
          beacon := fun s => s }
        false
        { encrypted := Option.none, unencrypted := PyVal.str ['f'],
          beacon := Option.none }
        (PyVal.str ['f', 'o', 'o'])).exactlyOneSlot := by
  exact (C2_setter_slot_exclusivity_amended (fun _ => [])
    { encrypt := fun _ => Option.some [1]
      decrypt := fun _ => Except.error PyErr.decryptKeyError
      beacon := fun s => s }
    false
    { encrypted := Option.none, unencrypted := PyVal.str ['f'],
      beacon := Option.none }
    (PyVal.str ['f', 'o', 'o'])).2.2.1 (Or.inl (fun h => Option.noConfusion h))

/-- C9: an equality or `in_()` predicate on a beaconed encrypted field is
rewritten to a beacon comparison exactly when a trial encryption of the
literal string `"test"` by the field's `encrypt_fn` returns non-`None` at
query-build time; otherwise the predicate compares the literal(s) against
the unencrypted column. -/
theorem C9_beacon_rewrite_iff_trial_encryption
    (vc bc : SqlOperand) (e : PyVal → Str) (b : Str → Str)
    (f : Str → Option Bytes) (other : PyVal) (others : List PyVal) :
    (f testStr ≠ Option.none →
        (BeaconComparatorModel.eqExpr
            { val := vc, beacon_val := bc, encoder_fn := Option.some e,
              beacon_fn := Option.some b, encrypt_fn := Option.some f } other
          = Option.some (SqlExpr.eqE bc (SqlOperand.litStr (b (e other)))))
          ∧ (BeaconComparatorModel.inExpr
              { val := vc, beacon_val := bc, encoder_fn := Option.some e,
                beacon_fn := Option.some b, encrypt_fn := Option.some f } others
            = Option.some (SqlExpr.inE bc
                (others.map (fun v => SqlOperand.litStr (b (e v)))))))
      ∧ (f testStr = Option.none →
          (BeaconComparatorModel.eqExpr
              { val := vc, beacon_val := bc, encoder_fn := Option.some e,
                beacon_fn := Option.some b, encrypt_fn := Option.some f } other
            = Option.some (SqlExpr.eqE vc (SqlOperand.lit other)))
            ∧ (BeaconComparatorModel.inExpr
                { val := vc, beacon_val := bc, encoder_fn := Option.some e,
                  beacon_fn := Option.some b, encrypt_fn := Option.some f } others
              = Option.some (SqlExpr.inE vc (others.map SqlOperand.lit)))) := by
  constructor
  · intro hf
    have hchk : BeaconComparatorModel.check_if_should_use_beacon
        { val := vc, beacon_val := bc, encoder_fn := Option.some e,
          beacon_fn := Option.some b, encrypt_fn := Option.some f } = true := by
      show (f testStr).isSome = true
      exact Option.isSome_iff_ne_none.mpr hf
    constructor
    · simp [BeaconComparatorModel.eqExpr, hchk, BeaconComparatorModel.beaconise]
    · simp only [BeaconComparatorModel.inExpr, hchk, if_true]
      rw [show others.mapM (BeaconComparatorModel.beaconise
          { val := vc, beacon_val := bc, encoder_fn := Option.some e,
            beacon_fn := Option.some b, encrypt_fn := Option.some f })
          = Option.some (others.map (fun v => b (e v))) from ?_]
      · simp
      · induction others with
        | nil => rfl
        | cons x xs ih =>
          rw [List.mapM_cons, ih]
          rfl
  · intro hf
    have hchk : BeaconComparatorModel.check_if_should_use_beacon
        { val := vc, beacon_val := bc, encoder_fn := Option.some e,
          beacon_fn := Option.some b, encrypt_fn := Option.some f } = false := by
      show (f testStr).isSome = false
      rw [hf]
      rfl
    constructor
    · simp [BeaconComparatorModel.eqExpr, hchk]
    · simp [BeaconComparatorModel.inExpr, hchk]

/-- Witness for C9: a comparator whose encryptor encrypts everything,
and one whose encryptor is a pass-through returning `None`. -/
theorem C9_beacon_rewrite_iff_trial_encryption_witness :
    (BeaconComparatorModel.eqExpr
        { val := SqlOperand.col ['u'], beacon_val := SqlOperand.col ['b'],
          encoder_fn := Option.some (fun _ => ['x']),
          beacon_fn := Option.some (fun s => s),
          encrypt_fn := Option.some (fun _ => Option.some [1]) }
        (PyVal.str ['v'])
      = Option.some (SqlExpr.eqE (SqlOperand.col ['b']) (SqlOperand.litStr ['x'])))
      ∧ (BeaconComparatorModel.eqExpr
          { val := SqlOperand.col ['u'], beacon_val := SqlOperand.col ['b'],
            encoder_fn := Option.some (fun _ => ['x']),
            beacon_fn := Option.some (fun s => s),
            encrypt_fn := Option.some (fun _ => Option.none) }
          (PyVal.str ['v'])
        = Option.some (SqlExpr.eqE (SqlOperand.col ['u'])
            (SqlOperand.lit (PyVal.str ['v'])))) := by
  constructor
  · exact ((C9_beacon_rewrite_iff_trial_encryption (SqlOperand.col ['u'])
      (SqlOperand.col ['b']) (fun _ => ['x']) (fun s => s)
      (fun _ => Option.some [1]) (PyVal.str ['v']) []).1
      (fun h => Option.noConfusion h)).1
  · exact ((C9_beacon_rewrite_iff_trial_encryption (SqlOperand.col ['u'])
      (SqlOperand.col ['b']) (fun _ => ['x']) (fun s => s)
      (fun _ => Option.none) (PyVal.str ['v']) []).2 rfl).1

theorem reencryptLoop_dry_run (cfg : Str → FieldCfg) (inst : Str → FieldState)
    (sess : SessionLog) (cols : List Str) :
    ∀ found committed : Bool,
      reencryptLoop cfg true inst sess found committed cols
        = Except.ok
          { found_to_be_unencrypted :=
              found || cols.any (fun c => !(inst c).unencrypted.isNone)
            change_commited := committed, inst := inst, sess := sess } := by
  induction cols with
  | nil => intro found committed; simp [reencryptLoop]
  | cons col rest ih =>
    intro found committed
    simp only [reencryptLoop, if_pos, ih, List.any_cons, Bool.or_assoc]

/-- C8: `reencrypt_instance` with `dry_run=True` is read-only: it raises
nothing, performs no merge or commit, returns the instance state
unchanged, and reports `change_commited = False` (while still classifying
unencrypted columns from the `_unencrypted` slots). -/
theorem C8_dry_run_reencrypt_is_noop (cfg : Str → FieldCfg) (cols : List Str)
    (inst : Str → FieldState) (sess : SessionLog) :
    reencrypt_instance cfg cols true inst sess
      = Except.ok
        { found_to_be_unencrypted := cols.any (fun c => !(inst c).unencrypted.isNone)
          change_commited := false, inst := inst, sess := sess } := by
  rw [reencrypt_instance, reencryptLoop_dry_run]
  simp

theorem reencryptLoop_not_dry_run (cfg : Str → FieldCfg) (cols : List Str) :
    ∀ (inst : Str → FieldState) (sess : SessionLog) (found committed : Bool)
      (r : ReencryptResult),
      reencryptLoop cfg false inst sess found committed cols = Except.ok r →
        r.change_commited = (committed || !cols.isEmpty)
          ∧ r.sess.commits = sess.commits + cols.length
          ∧ r.sess.merges = sess.merges + cols.length := by
  induction cols with
  | nil =>
    intro inst sess found committed r h
    rw [reencryptLoop] at h
    cases h
    simp
  | cons col rest ih =>
    intro inst sess found committed r h
    rw [reencryptLoop] at h
    simp only [if_neg (Bool.false_ne_true)] at h
    rcases hv : encryption.prop (cfg col).decode (cfg col).enc (inst col)
      with e | v <;> rw [hv] at h
    · cases h
    · obtain ⟨h1, h2, h3⟩ := ih _ _ _ _ _ h
      refine ⟨?_, ?_, ?_⟩
      · rw [h1]
        simp
      · rw [h2]
        show sess.commits + 1 + rest.length = sess.commits + (col :: rest).length
        simp only [List.length_cons]
        omega
      · rw [h3]
        show sess.merges + 1 + rest.length = sess.merges + (col :: rest).length
        simp only [List.length_cons]
        omega

/-- C10: with `dry_run=False` and at least one encryption column, a
successful `reencrypt_instance` always returns `change_commited = True`
(regardless of slot states) and commits once per encryption column; hence
a successful per-model run reports `instances_reencrypted` equal to
`total_instances_found`. -/
theorem C10_not_dry_run_always_commits (cfg : Str → FieldCfg) (cols : List Str)
    (hcols : cols ≠ []) :
    (∀ (inst : Str → FieldState) (sess : SessionLog) (r : ReencryptResult),
        reencrypt_instance cfg cols false inst sess = Except.ok r →
          r.change_commited = true
            ∧ r.sess.commits = sess.commits + cols.length)
      ∧ (∀ (insts : List (Str × (Str → FieldState))) (sess : SessionLog)
          (stats : StatsCollector) (sess2 : SessionLog),
          runModelLoop cfg cols false sess StatsCollector.init insts
              = Except.ok (stats, sess2) →
            stats.instances_reencrypted = stats.total_instances_found
              ∧ stats.total_instances_found = insts.length) := by
  have hpart1 : ∀ (inst : Str → FieldState) (sess : SessionLog) (r : ReencryptResult),
      reencrypt_instance cfg cols false inst sess = Except.ok r →
        r.change_commited = true ∧ r.sess.commits = sess.commits + cols.length := by
    intro inst sess r h
    have := reencryptLoop_not_dry_run cfg cols inst sess false false r h
    rcases this with ⟨h1, h2, -⟩
    refine ⟨?_, h2⟩
    rw [h1]
    simp [List.isEmpty_iff, hcols]
  refine ⟨hpart1, ?_⟩
  have hloop : ∀ (insts : List (Str × (Str → FieldState))) (sess : SessionLog)
      (col0 : StatsCollector) (stats : StatsCollector) (sess2 : SessionLog),
      runModelLoop cfg cols false sess col0 insts = Except.ok (stats, sess2) →
        stats.instances_reencrypted = col0.instances_reencrypted + insts.length
          ∧ stats.total_instances_found = col0.total_instances_found + insts.length := by
    intro insts
    induction insts with
    | nil =>
      intro sess col0 stats sess2 h
      rw [runModelLoop] at h
      cases h
      simp
    | cons p rest ih =>
      intro sess col0 stats sess2 h
      rw [runModelLoop] at h
      rcases hr : reencrypt_instance cfg cols false p.2 sess with e | r
      · rw [show (p : Str × (Str → FieldState)) = (p.1, p.2) from rfl] at h
        rw [hr] at h
        cases h
      · rw [show (p : Str × (Str → FieldState)) = (p.1, p.2) from rfl] at h
        rw [hr] at h
        have hcommitted := (hpart1 p.2 sess r hr).1
        have := ih _ _ _ _ h
        rcases this with ⟨h1, h2⟩
        rw [h1, h2]
        simp [collectorUpdate, hcommitted]
        omega
  intro insts sess stats sess2 h
  have := hloop insts sess StatsCollector.init stats sess2 h
  rcases this with ⟨h1, h2⟩
  rw [h1, h2]
  simp [StatsCollector.init]

/-- Witness for C10 at a concrete run: one column, one instance whose
field is already encrypted; the run commits and reports the commit. -/
theorem C10_not_dry_run_always_commits_witness :
    reencrypt_instance reencryptDemoCfg reencryptDemoCols false reencryptDemoInst
        { merges := 0, commits := 0 } = Except.ok reencryptDemoResult
      ∧ reencryptDemoResult.change_commited = true
      ∧ reencryptDemoResult.sess.commits = 1 := by
  refine ⟨rfl, ?_, ?_⟩
  · exact ((C10_not_dry_run_always_commits reencryptDemoCfg reencryptDemoCols
      (by simp [reencryptDemoCols])).1 reencryptDemoInst
      { merges := 0, commits := 0 } reencryptDemoResult rfl).1
  · exact ((C10_not_dry_run_always_commits reencryptDemoCfg reencryptDemoCols
      (by simp [reencryptDemoCols])).1 reencryptDemoInst
      { merges := 0, commits := 0 } reencryptDemoResult rfl).2

theorem charToDigit_digitToChar {d : Nat} (h : d < 10) :
    charToDigit (digitToChar d) = d := by
  interval_cases d <;> decide

theorem isDigitChar_digitToChar {d : Nat} (h : d < 10) :
    isDigitChar (digitToChar d) = true := by
  interval_cases d <;> decide

theorem charsToNat_cons (c : Char) (s : Str) :
    charsToNat (c :: s) = charToDigit c * 10 ^ s.length + charsToNat s := by
  have h : ∀ (t : Str) (a : Nat),
      t.foldl (fun acc c => 10 * acc + charToDigit c) a
        = a * 10 ^ t.length + t.foldl (fun acc c => 10 * acc + charToDigit c) 0 := by
    intro t
    induction t with
    | nil => intro a; simp
    | cons x xs ih =>
      intro a
      simp only [List.foldl_cons, List.length_cons]
      rw [ih (10 * a + charToDigit x), ih (10 * 0 + charToDigit x)]
      ring
  simp only [charsToNat, List.foldl_cons]
  rw [h s (10 * 0 + charToDigit c)]
  ring

theorem charsToNat_append (a b : Str) :
    charsToNat (a ++ b) = charsToNat a * 10 ^ b.length + charsToNat b := by
  induction a with
  | nil => simp [charsToNat]
  | cons c cs ih =>
    rw [List.cons_append, charsToNat_cons, charsToNat_cons, ih, List.length_append]
    ring

theorem charsToNat_replicate_zero (k : Nat) (s : Str) :
    charsToNat (List.replicate k (digitToChar 0) ++ s) = charsToNat s := by
  rw [charsToNat_append]
  have h0 : charsToNat (List.replicate k (digitToChar 0)) = 0 := by
    induction k with
    | zero => rfl
    | succ n ih =>
      rw [List.replicate_succ, charsToNat_cons, ih]
      simp [charToDigit, digitToChar]
  rw [h0]
  ring_nf

theorem charsToNat_natToChars (n : Nat) : charsToNat (natToChars n) = n := by
  unfold natToChars
  split
  · simp [charsToNat, charToDigit, digitToChar]
    omega
  · rename_i hn
    have hlt : ∀ d ∈ Nat.digits 10 n, d < 10 := fun d hd =>
      Nat.digits_lt_base (by norm_num) hd
    rw [show charsToNat ((List.map digitToChar (Nat.digits 10 n)).reverse)
        = Nat.ofDigits 10 (Nat.digits 10 n) from ?_, Nat.ofDigits_digits]
    generalize hds : Nat.digits 10 n = ds at hlt
    clear hds hn
    induction ds with
    | nil => rfl
    | cons d ds ih =>
      have hd : d < 10 := hlt d (List.mem_cons_self d ds)
      have ih' := ih (fun d hd => hlt d (List.mem_cons_of_mem _ hd))
      simp only [List.map_cons, List.reverse_cons]
      rw [charsToNat_append, ih', Nat.ofDigits_cons]
      simp [charsToNat_cons, charsToNat, charToDigit_digitToChar hd]
      ring

theorem natToChars_ne_nil (n : Nat) : natToChars n ≠ [] := by
  unfold natToChars
  split
  · simp
  · rename_i hn
    simp only [ne_eq, List.reverse_eq_nil_iff, List.map_eq_nil_iff]
    exact Nat.digits_ne_nil_iff_ne_zero.mpr hn

theorem natToChars_all_digits (n : Nat) :
    ∀ c ∈ natToChars n, isDigitChar c = true := by
  unfold natToChars
  split
  · intro c hc
    simp at hc
    subst hc
    decide
  · intro c hc
    simp only [List.mem_reverse, List.mem_map] at hc
    obtain ⟨d, hd, rfl⟩ := hc
    exact isDigitChar_digitToChar (Nat.digits_lt_base (by norm_num) hd)

theorem charsToNat_padZeros (w : Nat) (s : Str) :
    charsToNat (padZeros w s) = charsToNat s :=
  charsToNat_replicate_zero _ _

theorem padZeros_length {w : Nat} {s : Str} (h : s.length ≤ w) :
    (padZeros w s).length = w := by
  simp [padZeros]
  omega

theorem padZeros_all_digits {w : Nat} {s : Str}
    (h : ∀ c ∈ s, isDigitChar c = true) :
    ∀ c ∈ padZeros w s, isDigitChar c = true := by
  intro c hc
  rcases List.mem_append.mp hc with h1 | h2
  · have := List.eq_of_mem_replicate h1
    subst this
    decide
  · exact h c h2

theorem natToChars_length_le {n w : Nat} (hw : 1 ≤ w) (h : n < 10 ^ w) :
    (natToChars n).length ≤ w := by
  unfold natToChars
  split
  · simpa using hw
  · rename_i hn
    simp only [List.length_reverse, List.length_map]
    rw [Nat.digits_len 10 n (by norm_num) hn]
    have := Nat.log_lt_of_lt_pow hn h
    omega

theorem parseNatDigits_natToChars (n : Nat) :
    parseNatDigits (natToChars n) = some n := by
  rw [parseNatDigits, if_neg (natToChars_ne_nil n)]
  rw [if_pos (List.all_eq_true.mpr (natToChars_all_digits n))]
  rw [charsToNat_natToChars]

theorem isDigitChar_ne_minus {c : Char} (h : isDigitChar c = true) : c ≠ '-' := by
  intro hEq
  rw [hEq] at h
  exact absurd h (by decide)

theorem isDigitChar_ne_plus {c : Char} (h : isDigitChar c = true) : c ≠ '+' := by
  intro hEq
  rw [hEq] at h
  exact absurd h (by decide)

theorem pyIntOfStr_pyStrOfInt (i : Int) : pyIntOfStr (pyStrOfInt i) = some i := by
  by_cases hneg : i < 0
  · rw [pyStrOfInt, if_pos hneg, pyIntOfStr]
    simp only [reduceIte, parseNatDigits_natToChars, Option.some.injEq]
    omega
  · rw [pyStrOfInt, if_neg hneg]
    rcases hcons : natToChars i.natAbs with _ | ⟨c, rest⟩
    · exact absurd hcons (natToChars_ne_nil _)
    · have hdig : isDigitChar c = true := by
        have := natToChars_all_digits i.natAbs
        rw [hcons] at this
        exact this c (List.mem_cons_self c rest)
      rw [pyIntOfStr, if_neg (isDigitChar_ne_minus hdig),
        if_neg (isDigitChar_ne_plus hdig), ← hcons, parseNatDigits_natToChars]
      simp only [Option.some.injEq]
      omega

theorem pySplitSemi_ne_nil (s : Str) : pySplitSemi s ≠ [] := by
  cases s with
  | nil => simp [pySplitSemi]
  | cons c rest =>
    rw [pySplitSemi]
    rcases h : pySplitSemi rest with _ | ⟨t, ts⟩
    · simp
    · by_cases hc : c = ';' <;> simp [hc]

theorem pySplitSemi_no_semi {s : Str} (h : ';' ∉ s) : pySplitSemi s = [s] := by
  induction s with
  | nil => rfl
  | cons c rest ih =>
    have hc : c ≠ ';' := fun hEq => h (hEq ▸ List.mem_cons_self c rest)
    have hrest : ';' ∉ rest := fun hm => h (List.mem_cons_of_mem c hm)
    rw [pySplitSemi, ih hrest]
    simp [hc]

theorem pySplitSemi_first {a b : Str} (h : ';' ∉ a) :
    pySplitSemi (a ++ ';' :: b) = a :: pySplitSemi b := by
  induction a with
  | nil =>
    simp only [List.nil_append]
    rw [pySplitSemi]
    rcases hb : pySplitSemi b with _ | ⟨t, ts⟩
    · exact absurd hb (pySplitSemi_ne_nil b)
    · simp
  | cons c rest ih =>
    have hc : c ≠ ';' := fun hEq => h (hEq ▸ List.mem_cons_self c rest)
    have hrest : ';' ∉ rest := fun hm => h (List.mem_cons_of_mem c hm)
    rw [List.cons_append, pySplitSemi, ih hrest]
    simp [hc]

/-- C6: building the multi-tenant encryptor from a registry parsed from
empty configuration (`context_keys == []`) yields a router whose
encryptor mapping is empty: zero tenant encryptors, and no fabricated
`"default"` entry. -/
theorem C6_empty_registry_empty_router
    (key_ids account_ids : List StrOrList) (partitions restricted : List Str) :
    (make_encryptor (parse_config [] key_ids account_ids partitions restricted)).encryptors
        = []
      ∧ ((make_encryptor
            (parse_config [] key_ids account_ids partitions restricted)).encryptors.lookup
          (make_encryptor
            (parse_config [] key_ids account_ids partitions restricted)).default_key
          = none) := by
  constructor <;> simp [make_encryptor, parse_config]

/-- C7: `parse_config` splits each context's `key_ids` string on `";"`
(commas are not separators: a string without `";"` stays whole, and the
part before the first `";"` becomes index 0, the primary key id), and the
`restricted` flag of every entry whose index has no corresponding
`restricted_kms_policy` element defaults to `False`. -/
theorem C7_parse_config_split_restricted_default
    (context_keys : List Str) (key_ids account_ids : List StrOrList)
    (partitions restricted_kms_policy : List Str)
    (ix : Nat)
    (hix : ix < (parse_config context_keys key_ids account_ids partitions
        restricted_kms_policy).length) :
    (∀ hk : ix < key_ids.length,
        (parse_config context_keys key_ids account_ids partitions
          restricted_kms_policy)[ix].2.key_ids = splitCell key_ids[ix])
      ∧ (∀ prim rest : Str, ';' ∉ prim →
          pySplitSemi (prim ++ ';' :: rest) = prim :: pySplitSemi rest)
      ∧ (∀ s : Str, ';' ∉ s → pySplitSemi s = [s])
      ∧ (restricted_kms_policy.length ≤ ix →
          (parse_config context_keys key_ids account_ids partitions
            restricted_kms_policy)[ix].2.restricted = false) := by
  refine ⟨?_, fun prim rest h => pySplitSemi_first h, fun s h => pySplitSemi_no_semi h, ?_⟩
  · intro hk
    simp only [parse_config, List.getElem_map, List.getElem_enum, List.getElem_zip]
  · intro hrp
    simp only [parse_config, List.getElem_map, List.getElem_enum, List.getElem_zip]
    rw [dif_neg (by omega)]
    simp

/-- Witness for C7 at a concrete configuration: one context key, the
key-id cell `"bar;baz"`, no restricted flags supplied. -/
theorem C7_parse_config_split_restricted_default_witness :
    ((parse_config [['f', 'o', 'o']] [.strVal ['b', 'a', 'r', ';', 'b', 'a', 'z']]
        [.strVal ['1', '2']] [['a', 'w', 's']] []).get ⟨0, by decide⟩).2.key_ids
          = [['b', 'a', 'r'], ['b', 'a', 'z']]
      ∧ ((parse_config [['f', 'o', 'o']] [.strVal ['b', 'a', 'r', ';', 'b', 'a', 'z']]
          [.strVal ['1', '2']] [['a', 'w', 's']] []).get ⟨0, by decide⟩).2.restricted
          = false := by
  have h := C7_parse_config_split_restricted_default
    [['f', 'o', 'o']] [.strVal ['b', 'a', 'r', ';', 'b', 'a', 'z']]
    [.strVal ['1', '2']] [['a', 'w', 's']] [] 0 (by decide)
  refine ⟨?_, ?_⟩
  · have h1 := h.1 (by decide)
    exact h1.trans (by decide)
  · exact h.2.2.2 (by decide)

/-- C1: the claim says that when `get()` finds a non-null encrypted slot
and the tenant decrypt fails with a `DecryptKeyError`, it returns the
field encoder's redacted value (empty string for the string encoder).
The embedded `_prop` has no exception handler and the embedded `Encoder`
protocol has no redacted value, so at such an input the getter propagates
`DecryptKeyError` instead of returning the redacted `""`: the code
contradicts its own test suite (`tests/encryption/v2/test_redacted.py`). -/
theorem C1_decrypt_key_error_propagates_not_redacted :
    encryption.prop (fun s => Except.ok (PyVal.str s))
        { encrypt := fun _ => Option.none
          decrypt := fun _ => Except.error PyErr.decryptKeyError
          beacon := fun s => s }
        { encrypted := Option.some [0]
          unencrypted := PyVal.none
          beacon := Option.none }
        = Except.error PyErr.decryptKeyError
      ∧ encryption.prop (fun s => Except.ok (PyVal.str s))
          { encrypt := fun _ => Option.none
            decrypt := fun _ => Except.error PyErr.decryptKeyError
            beacon := fun s => s }
          { encrypted := Option.some [0]
            unencrypted := PyVal.none
            beacon := Option.none }
          ≠ Except.ok (PyVal.str []) := by
  exact ⟨rfl, fun h => Except.noConfusion h⟩

/-- C4: with no tenant encryptor context bound, the setter stores the
value in the unencrypted slot, nulls the encrypted slot and (when a
beacon column exists) the beacon slot, and a subsequent `get()` returns
the value unchanged without consulting the decoder. -/
theorem C4_no_context_writes_plaintext_and_reads_back
    (encode : PyVal → Str) (decode : Str → Except PyErr PyVal)
    (bfn : Str → Str) (hasB : Bool) (st : FieldState) (value : PyVal) :
    ((encryption.prop_setter encode (noContextEncryptor bfn) hasB st value).unencrypted
        = value)
      ∧ ((encryption.prop_setter encode (noContextEncryptor bfn) hasB st value).encrypted
          = Option.none)
      ∧ (hasB = true →
          (encryption.prop_setter encode (noContextEncryptor bfn) hasB st value).beacon
            = Option.none)
      ∧ (encryption.prop decode (noContextEncryptor bfn)
          (encryption.prop_setter encode (noContextEncryptor bfn) hasB st value)
          = Except.ok value) := by
  refine ⟨rfl, rfl, ?_, rfl⟩
  intro hB
  simp [encryption.prop_setter, noContextEncryptor, awsKmsEncrypt, hB]

/-- Witness for C4 at a concrete field: string encoder, beacon column
present, arbitrary prior state, value `"foo"`. -/
theorem C4_no_context_writes_plaintext_and_reads_back_witness :
    ((encryption.prop_setter (fun _ => []) (noContextEncryptor (fun s => s)) true
        { encrypted := Option.some [7], unencrypted := PyVal.none,
          beacon := Option.some ['x'] }
        (PyVal.str ['f', 'o', 'o'])).beacon = Option.none) := by
  exact (C4_no_context_writes_plaintext_and_reads_back (fun _ => [])
    (fun s => Except.ok (PyVal.str s)) (fun s => s) true
    { encrypted := Option.some [7], unencrypted := PyVal.none,
      beacon := Option.some ['x'] }
    (PyVal.str ['f', 'o', 'o'])).2.2.1 rfl

theorem hexVal_hexDigitChar {d : Nat} (h : d < 16) :
    hexVal (hexDigitChar d) = Option.some d := by
  interval_cases d <;> decide

theorem hex4_reconstruct {n : Nat} (h : n < 65536) :
    ((n / 4096 % 16 * 16 + n / 256 % 16) * 16 + n / 16 % 16) * 16 + n % 16 = n := by
  omega

theorem char_isValid (c : Char) : Nat.isValidChar c.toNat := c.valid

theorem char_not_surrogate (c : Char) : c.toNat < 55296 ∨ 57344 ≤ c.toNat := by
  rcases char_isValid c with h | ⟨h1, h2⟩
  · exact Or.inl h
  · exact Or.inr h1

theorem char_toNat_lt (c : Char) : c.toNat < 1114112 := by
  rcases char_isValid c with h | ⟨h1, h2⟩
  · omega
  · exact h2

theorem charFromCode_toNat (c : Char) : charFromCode c.toNat = Option.some c := by
  rw [charFromCode, if_pos (char_isValid c), Char.ofNat_toNat]

theorem parseHex4_toHex4 {n : Nat} (hlt : n < 65536) (tail : Str) :
    parseHex4 (toHex4 n ++ tail) = Option.some (n, tail) := by
  have e1 : hexVal (hexDigitChar (n / 4096 % 16)) = Option.some (n / 4096 % 16) :=
    hexVal_hexDigitChar (Nat.mod_lt _ (by norm_num))
  have e2 : hexVal (hexDigitChar (n / 256 % 16)) = Option.some (n / 256 % 16) :=
    hexVal_hexDigitChar (Nat.mod_lt _ (by norm_num))
  have e3 : hexVal (hexDigitChar (n / 16 % 16)) = Option.some (n / 16 % 16) :=
    hexVal_hexDigitChar (Nat.mod_lt _ (by norm_num))
  have e4 : hexVal (hexDigitChar (n % 16)) = Option.some (n % 16) :=
    hexVal_hexDigitChar (Nat.mod_lt _ (by norm_num))
  rw [toHex4]
  simp only [List.cons_append, List.nil_append, parseHex4, e1, e2, e3, e4,
    hex4_reconstruct hlt]

theorem parseEscape_u_bmp {n : Nat} (hlt : n < 65536) (hvalid : Nat.isValidChar n)
    (tail : Str) :
    parseEscape ('u' :: toHex4 n ++ tail) = Option.some (Char.ofNat n, tail) := by
  have hns : ¬(55296 ≤ n ∧ n ≤ 56319) := by
    rcases hvalid with h | ⟨h1, h2⟩ <;> omega
  rw [List.cons_append, parseEscape, if_pos rfl, parseHex4_toHex4 hlt]
  dsimp only
  rw [if_neg hns, charFromCode, if_pos hvalid]
  rfl

theorem parseEscape_u_pair {n : Nat} (hge : 65536 ≤ n) (hvalid : Nat.isValidChar n)
    (tail : Str) :
    parseEscape ('u' :: toHex4 (55296 + (n - 65536) / 1024)
        ++ ('\\' :: 'u' :: toHex4 (56320 + (n - 65536) % 1024)) ++ tail)
      = Option.some (Char.ofNat n, tail) := by
  have hltn : n < 1114112 := by
    rcases hvalid with h | ⟨h1, h2⟩ <;> omega
  have hdivlt : (n - 65536) / 1024 < 1024 := by omega
  have hmodlt : (n - 65536) % 1024 < 1024 := Nat.mod_lt _ (by norm_num)
  have hn1lt : 55296 + (n - 65536) / 1024 < 65536 := by omega
  have hn2lt : 56320 + (n - 65536) % 1024 < 65536 := by omega
  have hsur : 55296 ≤ 55296 + (n - 65536) / 1024
      ∧ 55296 + (n - 65536) / 1024 ≤ 56319 := by omega
  have hlow : 56320 ≤ 56320 + (n - 65536) % 1024
      ∧ 56320 + (n - 65536) % 1024 ≤ 57343 := by omega
  have hcode : 65536 + (55296 + (n - 65536) / 1024 - 55296) * 1024
      + (56320 + (n - 65536) % 1024 - 56320) = n := by
    have := Nat.div_add_mod (n - 65536) 1024
    omega
  have hsplit : toHex4 (55296 + (n - 65536) / 1024)
        ++ ('\\' :: 'u' :: toHex4 (56320 + (n - 65536) % 1024)) ++ tail
      = toHex4 (55296 + (n - 65536) / 1024)
        ++ ('\\' :: 'u' :: (toHex4 (56320 + (n - 65536) % 1024) ++ tail)) := by
    simp
  rw [List.cons_append, List.cons_append, parseEscape, if_pos rfl, hsplit,
    parseHex4_toHex4 hn1lt]
  dsimp only
  rw [if_pos hsur]
  rw [if_pos (And.intro rfl rfl), parseHex4_toHex4 hn2lt]
  dsimp only
  rw [if_pos hlow, hcode, charFromCode, if_pos hvalid]
  rfl

theorem parseJStringBody_escape (s : Str) :
    ∀ (rest : Str) (fuel : Nat), s.length < fuel →
      parseJStringBody fuel ((s.map escapeChar).flatten ++ '"' :: rest)
        = Option.some (s, rest) := by
  induction s with
  | nil =>
    intro rest fuel hfuel
    obtain ⟨f, rfl⟩ : ∃ f, fuel = f + 1 := ⟨fuel - 1, by omega⟩
    simp [parseJStringBody]
  | cons c s2 ih =>
    intro rest fuel hfuel
    obtain ⟨f, rfl⟩ : ∃ f, fuel = f + 1 := ⟨fuel - 1, by omega⟩
    have hf : s2.length < f := by
      simp only [List.length_cons] at hfuel
      omega
    have hsplit : ((c :: s2).map escapeChar).flatten ++ '"' :: rest
        = escapeChar c ++ ((s2.map escapeChar).flatten ++ '"' :: rest) := by
      simp
    rw [hsplit]
    by_cases h1 : c = '"'
    · subst h1
      simp [escapeChar, parseJStringBody, parseEscape, ih _ f hf]
    by_cases h2 : c = '\\'
    · subst h2
      simp [escapeChar, parseJStringBody, parseEscape, ih _ f hf]
    by_cases h3 : c = '\n'
    · subst h3
      simp [escapeChar, parseJStringBody, parseEscape, ih _ f hf]
    by_cases h4 : c = '\r'
    · subst h4
      simp [escapeChar, parseJStringBody, parseEscape, ih _ f hf]
    by_cases h5 : c = '\t'
    · subst h5
      simp [escapeChar, parseJStringBody, parseEscape, ih _ f hf]
    by_cases h6 : c.toNat = 8
    · have hc : Char.ofNat 8 = c := by rw [← h6, Char.ofNat_toNat]
      subst hc
      simp [escapeChar, parseJStringBody, parseEscape, ih _ f hf]
    by_cases h7 : c.toNat = 12
    · have hc : Char.ofNat 12 = c := by rw [← h7, Char.ofNat_toNat]
      subst hc
      simp [escapeChar, parseJStringBody, parseEscape, ih _ f hf]
    by_cases h8 : 32 ≤ c.toNat ∧ c.toNat ≤ 126
    · have hesc : escapeChar c = [c] := by
        rw [escapeChar, if_neg h1, if_neg h2, if_neg h3, if_neg h4, if_neg h5,
          if_neg h6, if_neg h7, if_pos h8]
      rw [hesc]
      have hstep : ([c] : Str) ++ ((s2.map escapeChar).flatten ++ '"' :: rest)
          = c :: ((s2.map escapeChar).flatten ++ '"' :: rest) := by simp
      rw [hstep]
      simp only [parseJStringBody, if_neg h1, if_neg h2, ih _ f hf]
      rfl
    by_cases h9 : c.toNat < 65536
    · have hesc : escapeChar c = '\\' :: 'u' :: toHex4 c.toNat := by
        rw [escapeChar, if_neg h1, if_neg h2, if_neg h3, if_neg h4, if_neg h5,
          if_neg h6, if_neg h7, if_neg h8, if_pos h9]
      rw [hesc]
      have hpe := parseEscape_u_bmp h9 (char_isValid c)
        ((s2.map escapeChar).flatten ++ '"' :: rest)
      rw [List.cons_append] at hpe
      rw [show ('\\' :: 'u' :: toHex4 c.toNat)
            ++ ((s2.map escapeChar).flatten ++ '"' :: rest)
          = '\\' :: ('u' :: (toHex4 c.toNat
            ++ ((s2.map escapeChar).flatten ++ '"' :: rest))) by simp]
      simp only [parseJStringBody]
      rw [if_neg (show ¬('\\' : Char) = '"' by decide)]
      simp only [if_true]
      rw [hpe]
      dsimp only
      rw [Char.ofNat_toNat, ih _ f hf]
      rfl
    · have hge : 65536 ≤ c.toNat := by omega
      have hesc : escapeChar c
          = ('\\' :: 'u' :: toHex4 (55296 + (c.toNat - 65536) / 1024))
            ++ ('\\' :: 'u' :: toHex4 (56320 + (c.toNat - 65536) % 1024)) := by
        rw [escapeChar, if_neg h1, if_neg h2, if_neg h3, if_neg h4, if_neg h5,
          if_neg h6, if_neg h7, if_neg h8, if_neg h9]
      rw [hesc]
      have hpe := parseEscape_u_pair hge (char_isValid c)
        ((s2.map escapeChar).flatten ++ '"' :: rest)
      generalize hA : toHex4 (55296 + (c.toNat - 65536) / 1024) = A at hpe ⊢
      generalize hB : toHex4 (56320 + (c.toNat - 65536) % 1024) = B at hpe ⊢
      rw [List.cons_append, List.cons_append] at hpe
      rw [show (('\\' :: 'u' :: A) ++ ('\\' :: 'u' :: B))
            ++ ((s2.map escapeChar).flatten ++ '"' :: rest)
          = '\\' :: ('u' :: (A ++ ('\\' :: 'u' :: B)
              ++ ((s2.map escapeChar).flatten ++ '"' :: rest))) by simp]
      rw [parseJStringBody]
      rw [show A ++ ('\\' :: 'u' :: B) ++ ((s2.map escapeChar).flatten ++ '"' :: rest)
          = A ++ ('\\' :: ('u' :: B ++ ((s2.map escapeChar).flatten ++ '"' :: rest)))
          by simp] at hpe ⊢
      rw [if_neg (show ¬('\\' : Char) = '"' by decide), if_pos rfl, hpe]
      dsimp only
      rw [Char.ofNat_toNat, ih _ f hf]
      rfl

theorem takeDigits_exact {ds : Str} (hds : ∀ c ∈ ds, isDigitChar c = true) :
    ∀ rest : Str,
      (rest = [] ∨ ∃ c2 r2, rest = c2 :: r2 ∧ isDigitChar c2 = false) →
      takeDigits (ds ++ rest) = (ds, rest) := by
  induction ds with
  | nil =>
    intro rest hrest
    rcases hrest with rfl | ⟨c2, r2, rfl, hc2⟩
    · rfl
    · simp [takeDigits, hc2]
  | cons d ds2 ih =>
    intro rest hrest
    have hd : isDigitChar d = true := hds d (List.mem_cons_self d ds2)
    have ih2 := ih (fun c hc => hds c (List.mem_cons_of_mem d hc)) rest hrest
    rw [List.cons_append, takeDigits, if_pos hd, ih2]

theorem natToChars_head_not_zero {n : Nat} (hn : n ≠ 0) :
    ∃ c cs, natToChars n = c :: cs ∧ c ≠ '0' := by
  rcases hcons : natToChars n with _ | ⟨c, cs⟩
  · exact absurd hcons (natToChars_ne_nil n)
  · refine ⟨c, cs, rfl, ?_⟩
    have hrev : natToChars n = ((Nat.digits 10 n).map digitToChar).reverse := by
      rw [natToChars, if_neg hn]
    have hne : Nat.digits 10 n ≠ [] := Nat.digits_ne_nil_iff_ne_zero.mpr hn
    have h1 : (List.map digitToChar (Nat.digits 10 n)).getLast? = Option.some c := by
      rw [← List.head?_reverse, ← hrev, hcons]
      rfl
    rw [List.getLast?_map, List.getLast?_eq_getLast_of_ne_nil hne] at h1
    simp only [Option.map_some', Option.some.injEq] at h1
    have hdmem : (Nat.digits 10 n).getLast hne ∈ Nat.digits 10 n :=
      List.getLast_mem hne
    have hdlt : (Nat.digits 10 n).getLast hne < 10 :=
      Nat.digits_lt_base (by norm_num) hdmem
    have hlast : (Nat.digits 10 n).getLast hne ≠ 0 := Nat.getLast_digit_ne_zero 10 hn
    intro hc0
    apply hlast
    have h2 : charToDigit c = (Nat.digits 10 n).getLast hne := by
      rw [← h1, charToDigit_digitToChar hdlt]
    rw [hc0] at h2
    have h0 : charToDigit '0' = 0 := by decide
    rw [h0] at h2
    exact h2.symm

theorem parseJNumber_pyStrOfInt (n : Int) :
    ∀ rest, numBoundary rest →
      parseJNumber (pyStrOfInt n ++ rest) = Option.some (n, rest) := by
  intro rest hb
  have hbTD : rest = [] ∨ ∃ c2 r2, rest = c2 :: r2 ∧ isDigitChar c2 = false := by
    rcases hb with rfl | ⟨c2, r2, rfl, hc2, -, -, -⟩
    · exact Or.inl rfl
    · exact Or.inr ⟨c2, r2, rfl, hc2⟩
  have hdig : ∀ c ∈ natToChars n.natAbs, isDigitChar c = true :=
    natToChars_all_digits _
  have htd : takeDigits (natToChars n.natAbs ++ rest) = (natToChars n.natAbs, rest) :=
    takeDigits_exact hdig rest hbTD
  have hzero : ∀ d ds, natToChars n.natAbs = d :: ds → ¬(d = '0' ∧ ds ≠ []) := by
    intro d ds hcons
    by_cases habs : n.natAbs = 0
    · have : natToChars n.natAbs = [digitToChar 0] := by rw [habs]; rfl
      rw [this] at hcons
      rintro ⟨-, hne⟩
      cases hcons
      exact hne rfl
    · obtain ⟨d2, ds2, hcons2, hd2⟩ := natToChars_head_not_zero habs
      rw [hcons2] at hcons
      cases hcons
      rintro ⟨h0, -⟩
      exact hd2 h0
  have hval : charsToNat (natToChars n.natAbs) = n.natAbs := charsToNat_natToChars _
  rcases hcons : natToChars n.natAbs with _ | ⟨d, ds⟩
  · exact absurd hcons (natToChars_ne_nil _)
  have hdd : isDigitChar d = true := by
    rw [hcons] at hdig
    exact hdig d (List.mem_cons_self d ds)
  have hzc := hzero d ds hcons
  rw [hcons] at htd hval
  rw [List.cons_append] at htd
  by_cases hneg : n < 0
  · rw [pyStrOfInt, if_pos hneg, hcons, List.cons_append]
    rw [parseJNumber]
    simp only [reduceIte, List.cons_append]
    rw [htd]
    dsimp only
    rw [if_neg hzc]
    have hfin : -((charsToNat (d :: ds) : Int)) = n := by
      rw [hval]
      omega
    rcases hb with rfl | ⟨c2, r2, rfl, hc2, hcdot, hce, hcE⟩
    · dsimp only
      simp [hfin]
    · dsimp only
      rw [if_neg (by rintro (h | h | h) <;> [exact hcdot h; exact hce h; exact hcE h])]
      simp [hfin]
  · rw [pyStrOfInt, if_neg hneg, hcons, List.cons_append]
    rw [parseJNumber]
    simp only [if_neg (isDigitChar_ne_minus hdd), List.cons_append]
    rw [htd]
    dsimp only
    rw [if_neg hzc]
    have hfin : ((charsToNat (d :: ds) : Int)) = n := by
      rw [hval]
      omega
    rcases hb with rfl | ⟨c2, r2, rfl, hc2, hcdot, hce, hcE⟩
    · dsimp only
      simp [hfin]
    · dsimp only
      rw [if_neg (by rintro (h | h | h) <;> [exact hcdot h; exact hce h; exact hcE h])]
      simp [hfin]

theorem skipWs_not_ws {c : Char} {t : Str} (h : isJsonWs c = false) :
    skipWs (c :: t) = c :: t := by
  rw [skipWs, if_neg (by rw [h]; exact Bool.false_ne_true)]

theorem isDigitChar_toNat {c : Char} (h : isDigitChar c = true) :
    48 ≤ c.toNat ∧ c.toNat ≤ 57 := by
  simpa [isDigitChar, Bool.and_eq_true, decide_eq_true_eq] using h

theorem isDigitChar_ne_char {c d : Char} (h : isDigitChar c = true)
    (hd : isDigitChar d = false) : c ≠ d := by
  intro hEq
  rw [hEq, hd] at h
  exact Bool.noConfusion h

theorem isDigitChar_not_ws {d : Char} (h : isDigitChar d = true) :
    isJsonWs d = false := by
  have hr := isDigitChar_toNat h
  have h1 : d ≠ ' ' := fun hEq => by rw [hEq] at hr; exact absurd hr (by decide)
  have h2 : d ≠ '\t' := fun hEq => by rw [hEq] at hr; exact absurd hr (by decide)
  have h3 : d ≠ '\n' := fun hEq => by rw [hEq] at hr; exact absurd hr (by decide)
  have h4 : d ≠ '\r' := fun hEq => by rw [hEq] at hr; exact absurd hr (by decide)
  simp [isJsonWs, h1, h2, h3, h4]

theorem pyJsonDumps_head (v : Json) :
    ∃ c cs, pyJsonDumps v = c :: cs ∧ isJsonWs c = false ∧ c ≠ ']' := by
  cases v with
  | null => exact ⟨'n', _, rfl, by decide, by decide⟩
  | boolean b =>
    cases b
    · exact ⟨'f', _, rfl, by decide, by decide⟩
    · exact ⟨'t', _, rfl, by decide, by decide⟩
  | int n =>
    by_cases hneg : n < 0
    · refine ⟨'-', natToChars n.natAbs, ?_, by decide, by decide⟩
      rw [pyJsonDumps, pyStrOfInt, if_pos hneg]
    · rcases hcons : natToChars n.natAbs with _ | ⟨d, ds⟩
      · exact absurd hcons (natToChars_ne_nil _)
      · have hdig : isDigitChar d = true := by
          have := natToChars_all_digits n.natAbs
          rw [hcons] at this
          exact this d (List.mem_cons_self d ds)
        refine ⟨d, ds, ?_, isDigitChar_not_ws hdig, ?_⟩
        · rw [pyJsonDumps, pyStrOfInt, if_neg hneg, hcons]
        · exact isDigitChar_ne_char hdig (by decide)
  | str s => exact ⟨'"', _, rfl, by decide, by decide⟩
  | arr xs => exact ⟨'[', _, rfl, by decide, by decide⟩
  | obj fs => exact ⟨lbraceChar, _, rfl, by decide, by decide⟩

theorem skipWs_cons_ws {c : Char} {t : Str} (h : isJsonWs c = true) :
    skipWs (c :: t) = skipWs t := by
  rw [skipWs, if_pos h]

theorem joinSep_cons_ex (sep a : Str) (l : List Str) :
    ∃ t, joinSep sep (a :: l) = a ++ t := by
  cases l with
  | nil => exact ⟨[], by rw [joinSep]; simp⟩
  | cons b r => exact ⟨sep ++ joinSep sep (b :: r), by rw [joinSep]; simp⟩

theorem nb_nil : numBoundary [] := Or.inl rfl

theorem nb_comma (r : Str) : numBoundary (',' :: r) :=
  Or.inr ⟨',', r, rfl, by decide, by decide, by decide, by decide⟩

theorem nb_rbrack (r : Str) : numBoundary (']' :: r) :=
  Or.inr ⟨']', r, rfl, by decide, by decide, by decide, by decide⟩

theorem nb_rbrace (r : Str) : numBoundary (rbraceChar :: r) :=
  Or.inr ⟨rbraceChar, r, rfl, by decide, by decide, by decide, by decide⟩

/-- Every JSON value needs at least one unit of parser fuel. -/
theorem jsonFuel_pos (v : Json) : 1 ≤ jsonFuel v := by
  cases v <;> rw [jsonFuel] <;> omega

/-- A non-empty array needs at least one unit of parser fuel. -/
theorem arrFuel_pos {xs : List Json} (h : xs ≠ []) : 1 ≤ arrFuel xs := by
  cases xs with
  | nil => exact absurd rfl h
  | cons x l => rw [arrFuel]; omega

/-- A non-empty object needs at least one unit of parser fuel. -/
theorem objFuel_pos {fs : List (Str × Json)} (h : fs ≠ []) : 1 ≤ objFuel fs := by
  cases fs with
  | nil => exact absurd rfl h
  | cons kv l => rw [objFuel]; omega

/-- The serialised items of a non-empty array start with the first
element's serialisation, whose head is not whitespace and not `]`. -/
theorem joinSep_dumpsArr_shape (x : Json) (l : List Json) :
    ∃ c t, joinSep [',', ' '] (dumpsArr (x :: l)) = c :: t
      ∧ isJsonWs c = false ∧ c ≠ ']' := by
  obtain ⟨t0, ht⟩ := joinSep_cons_ex [',', ' '] (pyJsonDumps x) (dumpsArr l)
  obtain ⟨c, cs, hc, hws, hrb⟩ := pyJsonDumps_head x
  refine ⟨c, cs ++ t0, ?_, hws, hrb⟩
  rw [show dumpsArr (x :: l) = pyJsonDumps x :: dumpsArr l from rfl, ht, hc]
  simp

/-- The serialised members of a non-empty object start with the quoted
first key. -/
theorem joinSep_dumpsObj_shape (kv : Str × Json) (l : List (Str × Json)) :
    ∃ t, joinSep [',', ' '] (dumpsObj (kv :: l))
      = '"' :: ((kv.1.map escapeChar).flatten
          ++ '"' :: ':' :: ' ' :: (pyJsonDumps kv.2 ++ t)) := by
  obtain ⟨t0, ht⟩ := joinSep_cons_ex [',', ' ']
    (encodeStringPy kv.1 ++ ':' :: ' ' :: pyJsonDumps kv.2) (dumpsObj l)
  refine ⟨t0, ?_⟩
  rw [show dumpsObj (kv :: l)
      = (encodeStringPy kv.1 ++ ':' :: ' ' :: pyJsonDumps kv.2) :: dumpsObj l
      from rfl, ht]
  simp [encodeStringPy]

/-- Adequacy of the `json.loads` scanner model against the `json.dumps`
printer model: with enough fuel, parsing a serialised value (followed by
any legal continuation) returns exactly that value, and likewise for the
element and member lists of arrays and objects. -/
theorem parseJValue_dumps (fuel : Nat) :
    (∀ v rest, jsonFuel v ≤ fuel → numBoundary rest →
      parseJValue fuel (pyJsonDumps v ++ rest) = Option.some (v, rest))
    ∧ (∀ xs rest, xs ≠ [] → arrFuel xs ≤ fuel →
      parseJArrElems fuel (joinSep [',', ' '] (dumpsArr xs) ++ ']' :: rest)
        = Option.some (xs, rest))
    ∧ (∀ fs rest, fs ≠ [] → objFuel fs ≤ fuel →
      parseJObjItems fuel (joinSep [',', ' '] (dumpsObj fs) ++ rbraceChar :: rest)
        = Option.some (fs, rest)) := by
  induction fuel with
  | zero =>
    refine ⟨?_, ?_, ?_⟩
    · intro v rest hf _
      exact absurd hf (by have := jsonFuel_pos v; omega)
    · intro xs rest hne hf
      exact absurd hf (by have := arrFuel_pos hne; omega)
    · intro fs rest hne hf
      exact absurd hf (by have := objFuel_pos hne; omega)
  | succ f ih =>
    obtain ⟨ihV, ihA, ihO⟩ := ih
    refine ⟨?_, ?_, ?_⟩
    · intro v rest hf hb
      cases v with
      | null =>
        rw [show pyJsonDumps Json.null ++ rest
            = 'n' :: 'u' :: 'l' :: 'l' :: rest from rfl]
        rw [parseJValue]
        try dsimp only
        rw [if_neg (show ¬('n' : Char) = '"' by decide),
          if_neg (show ¬('n' : Char) = '[' by decide),
          if_neg (show ¬('n' : Char) = lbraceChar by decide),
          if_neg (show ¬('n' : Char) = 't' by decide),
          if_neg (show ¬('n' : Char) = 'f' by decide),
          if_pos (show ('n' : Char) = 'n' from rfl)]
        rw [parseLit3]
        try dsimp only
        rw [if_pos (show ('u' : Char) = 'u' ∧ ('l' : Char) = 'l' ∧ ('l' : Char) = 'l'
          from ⟨rfl, rfl, rfl⟩)]
      | boolean b =>
        cases b with
        | false =>
          rw [show pyJsonDumps (Json.boolean false) ++ rest
              = 'f' :: 'a' :: 'l' :: 's' :: 'e' :: rest from rfl]
          rw [parseJValue]
          try dsimp only
          rw [if_neg (show ¬('f' : Char) = '"' by decide),
            if_neg (show ¬('f' : Char) = '[' by decide),
            if_neg (show ¬('f' : Char) = lbraceChar by decide),
            if_neg (show ¬('f' : Char) = 't' by decide),
            if_pos (show ('f' : Char) = 'f' from rfl)]
          rw [parseLit4]
          try dsimp only
          rw [if_pos (show ('a' : Char) = 'a' ∧ ('l' : Char) = 'l'
              ∧ ('s' : Char) = 's' ∧ ('e' : Char) = 'e'
            from ⟨rfl, rfl, rfl, rfl⟩)]
        | true =>
          rw [show pyJsonDumps (Json.boolean true) ++ rest
              = 't' :: 'r' :: 'u' :: 'e' :: rest from rfl]
          rw [parseJValue]
          try dsimp only
          rw [if_neg (show ¬('t' : Char) = '"' by decide),
            if_neg (show ¬('t' : Char) = '[' by decide),
            if_neg (show ¬('t' : Char) = lbraceChar by decide),
            if_pos (show ('t' : Char) = 't' from rfl)]
          rw [parseLit3]
          try dsimp only
          rw [if_pos (show ('r' : Char) = 'r' ∧ ('u' : Char) = 'u' ∧ ('e' : Char) = 'e'
            from ⟨rfl, rfl, rfl⟩)]
      | int n =>
        rw [show pyJsonDumps (Json.int n) ++ rest = pyStrOfInt n ++ rest from rfl]
        by_cases hneg : n < 0
        · rw [pyStrOfInt, if_pos hneg, List.cons_append, parseJValue]
          try dsimp only
          rw [if_neg (show ¬('-' : Char) = '"' by decide),
            if_neg (show ¬('-' : Char) = '[' by decide),
            if_neg (show ¬('-' : Char) = lbraceChar by decide),
            if_neg (show ¬('-' : Char) = 't' by decide),
            if_neg (show ¬('-' : Char) = 'f' by decide),
            if_neg (show ¬('-' : Char) = 'n' by decide)]
          rw [show ('-' :: (natToChars n.natAbs ++ rest) : Str) = pyStrOfInt n ++ rest
            by rw [pyStrOfInt, if_pos hneg, List.cons_append]]
          rw [parseJNumber_pyStrOfInt n rest hb]
          rfl
        · rcases hcons : natToChars n.natAbs with _ | ⟨d, ds⟩
          · exact absurd hcons (natToChars_ne_nil _)
          · have hdig : isDigitChar d = true := by
              have hall := natToChars_all_digits n.natAbs
              rw [hcons] at hall
              exact hall d (List.mem_cons_self d ds)
            rw [pyStrOfInt, if_neg hneg, hcons, List.cons_append, parseJValue]
            try dsimp only
            rw [if_neg (isDigitChar_ne_char hdig
                (show isDigitChar '"' = false by decide)),
              if_neg (isDigitChar_ne_char hdig
                (show isDigitChar '[' = false by decide)),
              if_neg (isDigitChar_ne_char hdig
                (show isDigitChar lbraceChar = false by decide)),
              if_neg (isDigitChar_ne_char hdig
                (show isDigitChar 't' = false by decide)),
              if_neg (isDigitChar_ne_char hdig
                (show isDigitChar 'f' = false by decide)),
              if_neg (isDigitChar_ne_char hdig
                (show isDigitChar 'n' = false by decide))]
            rw [show (d :: (ds ++ rest) : Str) = pyStrOfInt n ++ rest by
              rw [pyStrOfInt, if_neg hneg, hcons, List.cons_append]]
            rw [parseJNumber_pyStrOfInt n rest hb]
            rfl
      | str s =>
        have hlen : s.length < f := by
          rw [jsonFuel] at hf
          omega
        rw [show pyJsonDumps (Json.str s) ++ rest
            = '"' :: ((s.map escapeChar).flatten ++ '"' :: rest) by
          rw [show pyJsonDumps (Json.str s) = encodeStringPy s from rfl,
            encodeStringPy]
          simp]
        rw [parseJValue]
        try dsimp only
        rw [if_pos (show ('"' : Char) = '"' from rfl)]
        rw [parseJStringBody_escape s rest f hlen]
        rfl
      | arr xs =>
        cases xs with
        | nil =>
          rw [show pyJsonDumps (Json.arr []) ++ rest = '[' :: ']' :: rest from rfl]
          rw [parseJValue]
          try dsimp only
          rw [if_neg (show ¬('[' : Char) = '"' by decide),
            if_pos (show ('[' : Char) = '[' from rfl)]
          rw [skipWs_not_ws (show isJsonWs ']' = false by decide)]
          try dsimp only
          rw [if_pos (show (']' : Char) = ']' from rfl)]
        | cons x l =>
          have hfa : arrFuel (x :: l) ≤ f := by
            rw [jsonFuel] at hf
            omega
          obtain ⟨c, t, hjoin, hws, hrb⟩ := joinSep_dumpsArr_shape x l
          rw [show pyJsonDumps (Json.arr (x :: l)) ++ rest
              = '[' :: (joinSep [',', ' '] (dumpsArr (x :: l)) ++ ']' :: rest) by
            rw [show pyJsonDumps (Json.arr (x :: l))
                = '[' :: joinSep [',', ' '] (dumpsArr (x :: l)) ++ [']'] from rfl]
            simp]
          rw [parseJValue]
          try dsimp only
          rw [if_neg (show ¬('[' : Char) = '"' by decide),
            if_pos (show ('[' : Char) = '[' from rfl)]
          rw [show joinSep [',', ' '] (dumpsArr (x :: l)) ++ ']' :: rest
              = c :: (t ++ ']' :: rest) by rw [hjoin]; simp]
          rw [skipWs_not_ws hws]
          try dsimp only
          rw [if_neg hrb]
          rw [show (c :: (t ++ ']' :: rest) : Str)
              = joinSep [',', ' '] (dumpsArr (x :: l)) ++ ']' :: rest by
            rw [hjoin]; simp]
          rw [ihA (x :: l) rest (List.cons_ne_nil x l) hfa]
          rfl
      | obj fs =>
        cases fs with
        | nil =>
          rw [show pyJsonDumps (Json.obj []) ++ rest
              = lbraceChar :: rbraceChar :: rest from rfl]
          rw [parseJValue]
          try dsimp only
          rw [if_neg (show ¬lbraceChar = '"' by decide),
            if_neg (show ¬lbraceChar = '[' by decide),
            if_pos (show lbraceChar = lbraceChar from rfl)]
          rw [skipWs_not_ws (show isJsonWs rbraceChar = false by decide)]
          try dsimp only
          rw [if_pos (show rbraceChar = rbraceChar from rfl)]
        | cons kv l =>
          have hfo : objFuel (kv :: l) ≤ f := by
            rw [jsonFuel] at hf
            omega
          obtain ⟨t, hjoin⟩ := joinSep_dumpsObj_shape kv l
          rw [show pyJsonDumps (Json.obj (kv :: l)) ++ rest
              = lbraceChar
                :: (joinSep [',', ' '] (dumpsObj (kv :: l)) ++ rbraceChar :: rest) by
            rw [show pyJsonDumps (Json.obj (kv :: l))
                = lbraceChar :: joinSep [',', ' '] (dumpsObj (kv :: l)) ++ [rbraceChar]
              from rfl]
            simp]
          rw [parseJValue]
          try dsimp only
          rw [if_neg (show ¬lbraceChar = '"' by decide),
            if_neg (show ¬lbraceChar = '[' by decide),
            if_pos (show lbraceChar = lbraceChar from rfl)]
          rw [show joinSep [',', ' '] (dumpsObj (kv :: l)) ++ rbraceChar :: rest
              = '"' :: (((kv.1.map escapeChar).flatten
                  ++ '"' :: ':' :: ' ' :: (pyJsonDumps kv.2 ++ t))
                    ++ rbraceChar :: rest) by
            rw [hjoin]; simp]
          rw [skipWs_not_ws (show isJsonWs '"' = false by decide)]
          try dsimp only
          rw [if_neg (show ¬('"' : Char) = rbraceChar by decide)]
          rw [show (('"' : Char) :: (((kv.1.map escapeChar).flatten
                ++ '"' :: ':' :: ' ' :: (pyJsonDumps kv.2 ++ t))
                  ++ rbraceChar :: rest) : Str)
              = joinSep [',', ' '] (dumpsObj (kv :: l)) ++ rbraceChar :: rest by
            rw [hjoin]; simp]
          rw [ihO (kv :: l) rest (List.cons_ne_nil kv l) hfo]
          rfl
    · intro xs rest hne hfa
      cases xs with
      | nil => exact absurd rfl hne
      | cons x l =>
        cases l with
        | nil =>
          have hfx : jsonFuel x ≤ f := by
            rw [arrFuel, arrFuel] at hfa
            omega
          rw [show joinSep [',', ' '] (dumpsArr [x]) ++ ']' :: rest
              = pyJsonDumps x ++ ']' :: rest from rfl]
          rw [parseJArrElems]
          rw [ihV x (']' :: rest) hfx (nb_rbrack rest)]
          try dsimp only
          rw [skipWs_not_ws (show isJsonWs ']' = false by decide)]
          try dsimp only
          rw [if_pos (show (']' : Char) = ']' from rfl)]
        | cons y l2 =>
          have hfx : jsonFuel x ≤ f := by
            rw [arrFuel] at hfa
            omega
          have hfrest : arrFuel (y :: l2) ≤ f := by
            rw [arrFuel] at hfa
            have := jsonFuel_pos x
            omega
          obtain ⟨c2, t2, hjoin2, hws2, -⟩ := joinSep_dumpsArr_shape y l2
          rw [show joinSep [',', ' '] (dumpsArr (x :: y :: l2)) ++ ']' :: rest
              = pyJsonDumps x
                ++ ',' :: ' '
                  :: (joinSep [',', ' '] (dumpsArr (y :: l2)) ++ ']' :: rest) by
            rw [show dumpsArr (x :: y :: l2)
                = pyJsonDumps x :: pyJsonDumps y :: dumpsArr l2 from rfl, joinSep]
            rw [show (pyJsonDumps y :: dumpsArr l2 : List Str)
                = dumpsArr (y :: l2) from rfl]
            simp]
          rw [parseJArrElems]
          rw [ihV x
            (',' :: ' ' :: (joinSep [',', ' '] (dumpsArr (y :: l2)) ++ ']' :: rest))
            hfx (nb_comma _)]
          try dsimp only
          rw [skipWs_not_ws (show isJsonWs ',' = false by decide)]
          try dsimp only
          rw [if_neg (show ¬(',' : Char) = ']' by decide),
            if_pos (show (',' : Char) = ',' from rfl)]
          rw [skipWs_cons_ws (show isJsonWs ' ' = true by decide)]
          rw [show joinSep [',', ' '] (dumpsArr (y :: l2)) ++ ']' :: rest
              = c2 :: (t2 ++ ']' :: rest) by rw [hjoin2]; simp]
          rw [skipWs_not_ws hws2]
          rw [show (c2 :: (t2 ++ ']' :: rest) : Str)
              = joinSep [',', ' '] (dumpsArr (y :: l2)) ++ ']' :: rest by
            rw [hjoin2]; simp]
          rw [ihA (y :: l2) rest (List.cons_ne_nil y l2) hfrest]
    · intro fs rest hne hfo
      cases fs with
      | nil => exact absurd rfl hne
      | cons kv l =>
        have hklen : kv.1.length < f := by
          rw [objFuel] at hfo
          omega
        have hfv : jsonFuel kv.2 ≤ f := by
          rw [objFuel] at hfo
          omega
        cases l with
        | nil =>
          rw [show joinSep [',', ' '] (dumpsObj [kv]) ++ rbraceChar :: rest
              = '"' :: ((kv.1.map escapeChar).flatten
                  ++ '"' :: ':' :: ' '
                    :: (pyJsonDumps kv.2 ++ rbraceChar :: rest)) by
            rw [show dumpsObj [kv]
                = [encodeStringPy kv.1 ++ ':' :: ' ' :: pyJsonDumps kv.2] from rfl,
              joinSep]
            simp [encodeStringPy]]
          rw [parseJObjItems]
          try dsimp only
          rw [if_pos (show ('"' : Char) = '"' from rfl)]
          rw [parseJStringBody_escape kv.1
            (':' :: ' ' :: (pyJsonDumps kv.2 ++ rbraceChar :: rest)) f hklen]
          try dsimp only
          rw [skipWs_not_ws (show isJsonWs ':' = false by decide)]
          try dsimp only
          rw [if_pos (show (':' : Char) = ':' from rfl)]
          rw [skipWs_cons_ws (show isJsonWs ' ' = true by decide)]
          obtain ⟨cv, csv, hcv, hwsv, -⟩ := pyJsonDumps_head kv.2
          rw [show pyJsonDumps kv.2 ++ rbraceChar :: rest
              = cv :: (csv ++ rbraceChar :: rest) by rw [hcv]; simp]
          rw [skipWs_not_ws hwsv]
          rw [show (cv :: (csv ++ rbraceChar :: rest) : Str)
              = pyJsonDumps kv.2 ++ rbraceChar :: rest by rw [hcv]; simp]
          rw [ihV kv.2 (rbraceChar :: rest) hfv (nb_rbrace rest)]
          try dsimp only
          rw [skipWs_not_ws (show isJsonWs rbraceChar = false by decide)]
          try dsimp only
          rw [if_neg (show ¬rbraceChar = ',' by decide),
            if_pos (show rbraceChar = rbraceChar from rfl)]
        | cons kv2 l2 =>
          have hfrest : objFuel (kv2 :: l2) ≤ f := by
            rw [objFuel] at hfo
            have := jsonFuel_pos kv.2
            omega
          obtain ⟨t2, hjoin2⟩ := joinSep_dumpsObj_shape kv2 l2
          rw [show joinSep [',', ' '] (dumpsObj (kv :: kv2 :: l2)) ++ rbraceChar :: rest
              = '"' :: ((kv.1.map escapeChar).flatten
                  ++ '"' :: ':' :: ' '
                    :: (pyJsonDumps kv.2
                      ++ ',' :: ' '
                        :: (joinSep [',', ' '] (dumpsObj (kv2 :: l2))
                          ++ rbraceChar :: rest))) by
            rw [show dumpsObj (kv :: kv2 :: l2)
                = (encodeStringPy kv.1 ++ ':' :: ' ' :: pyJsonDumps kv.2)
                  :: (encodeStringPy kv2.1 ++ ':' :: ' ' :: pyJsonDumps kv2.2)
                    :: dumpsObj l2 from rfl, joinSep]
            rw [show ((encodeStringPy kv2.1 ++ ':' :: ' ' :: pyJsonDumps kv2.2)
                  :: dumpsObj l2 : List Str)
                = dumpsObj (kv2 :: l2) from rfl]
            simp [encodeStringPy]]
          rw [parseJObjItems]
          try dsimp only
          rw [if_pos (show ('"' : Char) = '"' from rfl)]
          rw [parseJStringBody_escape kv.1
            (':' :: ' '
              :: (pyJsonDumps kv.2
                ++ ',' :: ' '
                  :: (joinSep [',', ' '] (dumpsObj (kv2 :: l2))
                    ++ rbraceChar :: rest))) f hklen]
          try dsimp only
          rw [skipWs_not_ws (show isJsonWs ':' = false by decide)]
          try dsimp only
          rw [if_pos (show (':' : Char) = ':' from rfl)]
          rw [skipWs_cons_ws (show isJsonWs ' ' = true by decide)]
          obtain ⟨cv, csv, hcv, hwsv, -⟩ := pyJsonDumps_head kv.2
          rw [show pyJsonDumps kv.2
                ++ ',' :: ' '
                  :: (joinSep [',', ' '] (dumpsObj (kv2 :: l2)) ++ rbraceChar :: rest)
              = cv :: (csv
                ++ ',' :: ' '
                  :: (joinSep [',', ' '] (dumpsObj (kv2 :: l2)) ++ rbraceChar :: rest))
            by rw [hcv]; simp]
          rw [skipWs_not_ws hwsv]
          rw [show (cv :: (csv
                ++ ',' :: ' '
                  :: (joinSep [',', ' '] (dumpsObj (kv2 :: l2))
                    ++ rbraceChar :: rest)) : Str)
              = pyJsonDumps kv.2
                ++ ',' :: ' '
                  :: (joinSep [',', ' '] (dumpsObj (kv2 :: l2)) ++ rbraceChar :: rest)
            by rw [hcv]; simp]
          rw [ihV kv.2
            (',' :: ' '
              :: (joinSep [',', ' '] (dumpsObj (kv2 :: l2)) ++ rbraceChar :: rest))
            hfv (nb_comma _)]
          try dsimp only
          rw [skipWs_not_ws (show isJsonWs ',' = false by decide)]
          try dsimp only
          rw [if_pos (show (',' : Char) = ',' from rfl)]
          rw [skipWs_cons_ws (show isJsonWs ' ' = true by decide)]
          rw [show joinSep [',', ' '] (dumpsObj (kv2 :: l2)) ++ rbraceChar :: rest
              = '"' :: (((kv2.1.map escapeChar).flatten
                  ++ '"' :: ':' :: ' ' :: (pyJsonDumps kv2.2 ++ t2))
                    ++ rbraceChar :: rest) by
            rw [hjoin2]; simp]
          rw [skipWs_not_ws (show isJsonWs '"' = false by decide)]
          rw [show (('"' : Char) :: (((kv2.1.map escapeChar).flatten
                ++ '"' :: ':' :: ' ' :: (pyJsonDumps kv2.2 ++ t2))
                  ++ rbraceChar :: rest) : Str)
              = joinSep [',', ' '] (dumpsObj (kv2 :: l2)) ++ rbraceChar :: rest by
            rw [hjoin2]; simp]
          rw [ihO (kv2 :: l2) rest (List.cons_ne_nil kv2 l2) hfrest]

/-- Escaping a character never produces the empty string. -/
theorem escapeChar_length_pos (c : Char) : 1 ≤ (escapeChar c).length := by
  rw [escapeChar]
  split_ifs <;> simp [toHex4]

/-- Escaping a string never shrinks it. -/
theorem flatten_escape_length (s : Str) :
    s.length ≤ ((s.map escapeChar).flatten).length := by
  induction s with
  | nil => simp
  | cons c s2 ih =>
    simp only [List.map_cons, List.flatten_cons, List.length_append,
      List.length_cons]
    have := escapeChar_length_pos c
    omega

/-- The fuel needed to parse a serialised value is bounded by the length
of its serialisation (auxiliary form, by strong induction on size). -/
theorem jsonFuel_le_dumps_aux (n : Nat) :
    ∀ v : Json, sizeOf v ≤ n → jsonFuel v ≤ (pyJsonDumps v).length + 1 := by
  induction n using Nat.strong_induction_on with
  | _ n ih =>
    intro v hv
    cases v with
    | null => rw [jsonFuel]; omega
    | boolean b => rw [jsonFuel]; omega
    | int m => rw [jsonFuel]; omega
    | str s =>
      rw [jsonFuel, show pyJsonDumps (Json.str s) = encodeStringPy s from rfl,
        encodeStringPy]
      have := flatten_escape_length s
      simp only [List.length_cons, List.length_append]
      omega
    | arr xs =>
      have helem : ∀ x ∈ xs, jsonFuel x ≤ (pyJsonDumps x).length + 1 := by
        intro x hx
        have hlt : sizeOf x < sizeOf (Json.arr xs) := by
          have hx2 := List.sizeOf_lt_of_mem hx
          simp only [Json.arr.sizeOf_spec]
          omega
        exact ih (sizeOf x) (by omega) x le_rfl
      have hlist : ∀ ys : List Json,
          (∀ y ∈ ys, jsonFuel y ≤ (pyJsonDumps y).length + 1) →
          arrFuel ys ≤ (joinSep [',', ' '] (dumpsArr ys)).length + 2 := by
        intro ys
        induction ys with
        | nil => intro _; rw [arrFuel]; simp [dumpsArr, joinSep]
        | cons y l ihl =>
          intro hys
          have hy := hys y (List.mem_cons_self y l)
          have hl := ihl (fun z hz => hys z (List.mem_cons_of_mem y hz))
          cases l with
          | nil =>
            rw [arrFuel, arrFuel]
            rw [show joinSep [',', ' '] (dumpsArr [y]) = pyJsonDumps y from rfl]
            omega
          | cons z l2 =>
            rw [arrFuel]
            rw [show joinSep [',', ' '] (dumpsArr (y :: z :: l2))
                = pyJsonDumps y ++ [',', ' ']
                  ++ joinSep [',', ' '] (dumpsArr (z :: l2)) by
              rw [show dumpsArr (y :: z :: l2)
                  = pyJsonDumps y :: pyJsonDumps z :: dumpsArr l2 from rfl,
                joinSep]
              rw [show (pyJsonDumps z :: dumpsArr l2 : List Str)
                  = dumpsArr (z :: l2) from rfl]]
            simp only [List.length_append, List.length_cons, List.length_nil]
            omega
      have hxs := hlist xs helem
      rw [jsonFuel, show pyJsonDumps (Json.arr xs)
          = '[' :: joinSep [',', ' '] (dumpsArr xs) ++ [']'] from rfl]
      simp only [List.length_cons, List.length_append]
      omega
    | obj fs =>
      have helem : ∀ kv ∈ fs, jsonFuel kv.2 ≤ (pyJsonDumps kv.2).length + 1 := by
        intro kv hkv
        have hkv2 := List.sizeOf_lt_of_mem hkv
        have hlt : sizeOf kv.2 < sizeOf (Json.obj fs) := by
          simp only [Json.obj.sizeOf_spec]
          have hp : sizeOf kv.2 ≤ sizeOf kv := by
            cases kv with
            | mk a b => simp
          omega
        exact ih (sizeOf kv.2) (by omega) kv.2 le_rfl
      have hlist : ∀ gs : List (Str × Json),
          (∀ kv ∈ gs, jsonFuel kv.2 ≤ (pyJsonDumps kv.2).length + 1) →
          objFuel gs ≤ (joinSep [',', ' '] (dumpsObj gs)).length + 2 := by
        intro gs
        induction gs with
        | nil => intro _; rw [objFuel]; simp [dumpsObj, joinSep]
        | cons kv l ihl =>
          intro hgs
          have hk := hgs kv (List.mem_cons_self kv l)
          have hl := ihl (fun z hz => hgs z (List.mem_cons_of_mem kv hz))
          have hflat := flatten_escape_length kv.1
          cases l with
          | nil =>
            rw [objFuel, objFuel]
            rw [show joinSep [',', ' '] (dumpsObj [kv])
                = encodeStringPy kv.1 ++ ':' :: ' ' :: pyJsonDumps kv.2 from rfl]
            rw [encodeStringPy]
            simp only [List.length_append, List.length_cons]
            omega
          | cons kv2 l2 =>
            rw [objFuel]
            rw [show joinSep [',', ' '] (dumpsObj (kv :: kv2 :: l2))
                = (encodeStringPy kv.1 ++ ':' :: ' ' :: pyJsonDumps kv.2)
                  ++ [',', ' '] ++ joinSep [',', ' '] (dumpsObj (kv2 :: l2)) by
              rw [show dumpsObj (kv :: kv2 :: l2)
                  = (encodeStringPy kv.1 ++ ':' :: ' ' :: pyJsonDumps kv.2)
                    :: (encodeStringPy kv2.1 ++ ':' :: ' ' :: pyJsonDumps kv2.2)
                      :: dumpsObj l2 from rfl, joinSep]
              rw [show ((encodeStringPy kv2.1 ++ ':' :: ' ' :: pyJsonDumps kv2.2)
                    :: dumpsObj l2 : List Str)
                  = dumpsObj (kv2 :: l2) from rfl]]
            rw [encodeStringPy]
            simp only [List.length_append, List.length_cons]
            omega
      have hfs := hlist fs helem
      rw [jsonFuel, show pyJsonDumps (Json.obj fs)
          = lbraceChar :: joinSep [',', ' '] (dumpsObj fs) ++ [rbraceChar]
        from rfl]
      simp only [List.length_cons, List.length_append]
      omega

/-- The fuel needed to parse a serialised value is bounded by the length
of its serialisation. -/
theorem jsonFuel_le_dumps (v : Json) :
    jsonFuel v ≤ (pyJsonDumps v).length + 1 :=
  jsonFuel_le_dumps_aux (sizeOf v) v le_rfl

/-- Round trip of the JSON model: `json.loads` of `json.dumps` returns
the original value. -/
theorem pyJsonLoads_pyJsonDumps (v : Json) :
    pyJsonLoads (pyJsonDumps v) = Option.some v := by
  obtain ⟨c, cs, hc, hws, -⟩ := pyJsonDumps_head v
  have hskip : skipWs (pyJsonDumps v) = pyJsonDumps v := by
    rw [hc]; exact skipWs_not_ws hws
  have hfuel : jsonFuel v ≤ (pyJsonDumps v).length + 1 := jsonFuel_le_dumps v
  have hpv := (parseJValue_dumps ((pyJsonDumps v).length + 1)).1 v [] hfuel nb_nil
  rw [List.append_nil] at hpv
  simp only [pyJsonLoads]
  rw [hskip, hpv]
  try dsimp only
  rw [if_pos (show skipWs ([] : Str) = [] from rfl)]

/-- Digit characters printed from digits below ten read back as the same
digits. -/
theorem map_charToDigit_digitToChar {ds : List Nat} (h : ∀ k ∈ ds, k < 10) :
    (ds.map digitToChar).map charToDigit = ds := by
  induction ds with
  | nil => rfl
  | cons k t ih =>
    simp only [List.map_cons]
    rw [charToDigit_digitToChar (h k (List.mem_cons_self k t)),
      ih (fun j hj => h j (List.mem_cons_of_mem k hj))]

/-- Digits below ten print as digit characters. -/
theorem mem_map_digitToChar_isDigit {ds : List Nat} (h : ∀ k ∈ ds, k < 10) :
    ∀ c ∈ ds.map digitToChar, isDigitChar c = true := by
  intro c hc
  obtain ⟨k, hk, rfl⟩ := List.mem_map.mp hc
  exact isDigitChar_digitToChar (h k hk)

/-- Stripping zeros ignores a zero-run prefix. -/
theorem stripZeros_replicate_append (k : Nat) (l : List Nat) :
    stripZeros (List.replicate k 0 ++ l) = stripZeros l := by
  induction k with
  | zero => rfl
  | succ k2 ih =>
    rw [List.replicate_succ, List.cons_append, stripZeros, if_pos rfl, ih]

/-- A canonical coefficient survives zero-stripping and the empty-digits
fallback of `mkDecimal`. -/
theorem stripZeros_canonical {digs : List Nat} (hne : digs ≠ [])
    (hlead : digs.head? = Option.some 0 → digs = [0]) :
    (if stripZeros digs = [] then [0] else stripZeros digs) = digs := by
  cases digs with
  | nil => exact absurd rfl hne
  | cons k t =>
    by_cases hk : k = 0
    · subst hk
      have ht : (0 : Nat) :: t = [0] := hlead rfl
      rw [ht]
      rfl
    · rw [stripZeros, if_neg hk]
      rw [if_neg (List.cons_ne_nil k t)]

/-- `takeDigits` consumes an all-digits string entirely. -/
theorem takeDigits_all (ds : Str) (h : ∀ c ∈ ds, isDigitChar c = true) :
    takeDigits ds = (ds, []) := by
  have h2 := takeDigits_exact h [] (Or.inl rfl)
  simpa using h2

/-- `mkDecimal` recovers a canonical decimal from any split of its
printed digits (with an optional run of leading zeros) and a matching
exponent. -/
theorem mkDecimal_eq (sg : Bool) (d : PyDecimal) (hne : d.digits ≠ [])
    (hlt : ∀ k ∈ d.digits, k < 10)
    (hlead : d.digits.head? = Option.some 0 → d.digits = [0])
    (pre : Nat) (ipart fpart : Str) (e : Int)
    (hsplit : ipart ++ fpart = List.replicate pre '0' ++ d.digits.map digitToChar)
    (hexp : e - (fpart.length : Int) = d.exp) :
    mkDecimal sg ipart fpart e
      = { sign := sg, digits := d.digits, exp := d.exp } := by
  have hmap : (ipart ++ fpart).map charToDigit
      = List.replicate pre 0 ++ d.digits := by
    rw [hsplit, List.map_append, List.map_replicate,
      map_charToDigit_digitToChar hlt]
    rfl
  have hlead2 : d.digits.head? = Option.some 0 → d.digits = [0] := hlead
  simp only [mkDecimal]
  rw [hmap, stripZeros_replicate_append, stripZeros_canonical hne hlead2, hexp]

/-- The positional/scientific body always starts with a digit
character. -/
theorem decimalBody_head (d : PyDecimal) (hne : d.digits ≠ [])
    (hlt : ∀ k ∈ d.digits, k < 10) :
    ∃ c t, decimalBody d = c :: t ∧ isDigitChar c = true := by
  rcases hds : d.digits with _ | ⟨d0, ds0⟩
  · exact absurd hds hne
  have hd0 : d0 < 10 := by
    rw [hds] at hlt
    exact hlt d0 (List.mem_cons_self d0 ds0)
  rw [decimalBody]
  by_cases h1 : decimalDotplace d ≤ 0
  · rw [if_pos h1]
    exact ⟨'0', _, rfl, by decide⟩
  · rw [if_neg h1]
    by_cases h2 : (d.digits.length : Int) ≤ decimalDotplace d
    · rw [if_pos h2, hds]
      exact ⟨digitToChar d0, _, rfl, isDigitChar_digitToChar hd0⟩
    · rw [if_neg h2, hds]
      obtain ⟨m, hm⟩ : ∃ m, (decimalDotplace d).toNat = m + 1 :=
        ⟨(decimalDotplace d).toNat - 1, by omega⟩
      rw [hm]
      simp only [List.map_cons, List.take_succ_cons]
      exact ⟨digitToChar d0, _, rfl, isDigitChar_digitToChar hd0⟩

/-- The exponent tail of the parser undoes `'E' :: expChars`. -/
theorem parseDecimalTail_exp (sg : Bool) (ipart fpart : Str) (e : Int) :
    parseDecimalTail sg ipart fpart ('E' :: expChars e)
      = Option.some (mkDecimal sg ipart fpart e) := by
  rcases hcons : natToChars e.natAbs with _ | ⟨e1, eds⟩
  · exact absurd hcons (natToChars_ne_nil _)
  have hall : ∀ c ∈ e1 :: eds, isDigitChar c = true := by
    rw [← hcons]
    exact natToChars_all_digits _
  have hval : charsToNat (e1 :: eds) = e.natAbs := by
    rw [← hcons]
    exact charsToNat_natToChars _
  by_cases hneg : e < 0
  · rw [show expChars e = '-' :: (e1 :: eds) by rw [expChars, if_pos hneg, hcons]]
    rw [parseDecimalTail, if_pos (Or.inr rfl : ('E' : Char) = 'e' ∨ ('E' : Char) = 'E')]
    rw [parseDecimalExpSign, if_pos (show ('-' : Char) = '-' from rfl)]
    rw [parseDecimalExpDigits, takeDigits_all (e1 :: eds) hall]
    try dsimp only
    rw [if_pos (rfl : ([] : Str) = []), if_pos rfl, hval]
    have he : -((e.natAbs : Int)) = e := by omega
    rw [he]
  · rw [show expChars e = '+' :: (e1 :: eds) by rw [expChars, if_neg hneg, hcons]]
    rw [parseDecimalTail, if_pos (Or.inr rfl : ('E' : Char) = 'e' ∨ ('E' : Char) = 'E')]
    rw [parseDecimalExpSign, if_neg (show ¬('+' : Char) = '-' by decide),
      if_pos (show ('+' : Char) = '+' from rfl)]
    rw [parseDecimalExpDigits, takeDigits_all (e1 :: eds) hall]
    try dsimp only
    rw [if_pos (rfl : ([] : Str) = []),
      if_neg (show ¬((false : Bool) = true) by decide), hval]
    have he : ((e.natAbs : Int)) = e := by omega
    rw [he]

/-- The coefficient-and-tail parser undoes the printed body and exponent
of a canonical decimal, for either sign flag. -/
theorem parseDecimalBody_decimalStr (sg : Bool) (d : PyDecimal)
    (hne : d.digits ≠ []) (hlt : ∀ k ∈ d.digits, k < 10)
    (hlead : d.digits.head? = Option.some 0 → d.digits = [0]) :
    parseDecimalBody sg (decimalBody d ++ decimalExppart d)
      = Option.some { sign := sg, digits := d.digits, exp := d.exp } := by
  have hn1 : 1 ≤ d.digits.length := List.length_pos.mpr hne
  have hdigs : ∀ c ∈ d.digits.map digitToChar, isDigitChar c = true :=
    mem_map_digitToChar_isDigit hlt
  by_cases hsci : d.exp ≤ 0 ∧ -6 < d.exp + (d.digits.length : Int)
  · -- positional notation, no exponent part
    have hdp : decimalDotplace d = d.exp + (d.digits.length : Int) := by
      rw [decimalDotplace, if_pos hsci]
    have hexpp : decimalExppart d = [] := by
      rw [decimalExppart, if_pos hdp.symm]
    rw [hexpp, List.append_nil]
    by_cases h1 : decimalDotplace d ≤ 0
    · -- 0.00ddd
      have hbody : decimalBody d
          = '0' :: '.' :: (List.replicate (-decimalDotplace d).toNat '0'
              ++ d.digits.map digitToChar) := by
        rw [decimalBody, if_pos h1]
      rw [hbody]
      have hallR : ∀ c ∈ List.replicate (-decimalDotplace d).toNat '0'
          ++ d.digits.map digitToChar, isDigitChar c = true := by
        intro c hc
        rcases List.mem_append.mp hc with h | h
        · rw [List.eq_of_mem_replicate h]; decide
        · exact hdigs c h
      have htd1 : takeDigits ('0' :: '.'
            :: (List.replicate (-decimalDotplace d).toNat '0'
              ++ d.digits.map digitToChar))
          = (['0'], '.' :: (List.replicate (-decimalDotplace d).toNat '0'
              ++ d.digits.map digitToChar)) := by
        have h3 := takeDigits_exact
          (show ∀ c ∈ (['0'] : Str), isDigitChar c = true by
            intro c hc; rw [List.mem_singleton] at hc; subst hc; decide)
          ('.' :: (List.replicate (-decimalDotplace d).toNat '0'
            ++ d.digits.map digitToChar))
          (Or.inr ⟨'.', _, rfl, by decide⟩)
        simpa using h3
      rw [parseDecimalBody, htd1]
      try dsimp only
      rw [parseDecimalAfterInt, if_pos (show ('.' : Char) = '.' from rfl)]
      rw [takeDigits_all _ hallR]
      try dsimp only
      rw [if_neg (show ¬((['0'] : Str) = []
        ∧ List.replicate (-decimalDotplace d).toNat '0'
            ++ d.digits.map digitToChar = []) by simp)]
      rw [parseDecimalTail]
      rw [mkDecimal_eq sg d hne hlt hlead ((-decimalDotplace d).toNat + 1)
        ['0'] _ 0 ?hsplit ?hexp]
      case hsplit =>
        rw [List.replicate_succ, List.cons_append]
        rfl
      case hexp =>
        have hc1 : ((-decimalDotplace d).toNat : Int) = -decimalDotplace d := by
          omega
        simp only [List.length_append, List.length_replicate, List.length_map]
        rw [hdp] at hc1 ⊢
        push_cast
        omega
    · by_cases h2 : (d.digits.length : Int) ≤ decimalDotplace d
      · -- plain integer: exp = 0
        have hz : (decimalDotplace d - (d.digits.length : Int)).toNat = 0 := by
          rw [hdp]
          omega
        have hbody : decimalBody d = d.digits.map digitToChar := by
          rw [decimalBody, if_neg h1, if_pos h2, hz]
          simp
        rw [hbody]
        rw [parseDecimalBody, takeDigits_all _ hdigs]
        try dsimp only
        rw [parseDecimalAfterInt,
          if_neg (show ¬(d.digits.map digitToChar = []) by
            simpa using hne)]
        rw [parseDecimalTail]
        rw [mkDecimal_eq sg d hne hlt hlead 0 _ [] 0 (by simp) ?hexp2]
        case hexp2 =>
          have : d.exp = 0 := by
            rw [hdp] at h1 h2
            omega
          simp [this]
      · -- digits with an interior point
        have hm1 : 1 ≤ (decimalDotplace d).toNat := by omega
        have hmn : (decimalDotplace d).toNat < d.digits.length := by
          rw [hdp] at h1 h2 ⊢
          omega
        have hbody : decimalBody d
            = (d.digits.map digitToChar).take (decimalDotplace d).toNat
              ++ '.' :: (d.digits.map digitToChar).drop (decimalDotplace d).toNat := by
          rw [decimalBody, if_neg h1, if_neg h2]
        rw [hbody]
        have htake : ∀ c ∈ (d.digits.map digitToChar).take (decimalDotplace d).toNat,
            isDigitChar c = true :=
          fun c hc => hdigs c (List.mem_of_mem_take hc)
        have hdrop : ∀ c ∈ (d.digits.map digitToChar).drop (decimalDotplace d).toNat,
            isDigitChar c = true :=
          fun c hc => hdigs c (List.mem_of_mem_drop hc)
        have htd1 := takeDigits_exact htake
          ('.' :: (d.digits.map digitToChar).drop (decimalDotplace d).toNat)
          (Or.inr ⟨'.', _, rfl, by decide⟩)
        rw [parseDecimalBody, htd1]
        try dsimp only
        rw [parseDecimalAfterInt, if_pos (show ('.' : Char) = '.' from rfl)]
        rw [takeDigits_all _ hdrop]
        try dsimp only
        have htne : (d.digits.map digitToChar).take (decimalDotplace d).toNat ≠ [] := by
          simp only [ne_eq, List.take_eq_nil_iff]
          push_neg
          constructor
          · omega
          · simpa using hne
        rw [if_neg (fun hand => htne hand.1)]
        rw [parseDecimalTail]
        rw [mkDecimal_eq sg d hne hlt hlead 0 _ _ 0 ?hsplit3 ?hexp3]
        case hsplit3 =>
          rw [List.take_append_drop]
          rfl
        case hexp3 =>
          simp only [List.length_drop, List.length_map]
          rw [hdp] at hm1 hmn ⊢
          omega
  · -- scientific notation
    have hdp : decimalDotplace d = 1 := by
      rw [decimalDotplace, if_neg hsci]
    have hld : d.exp + (d.digits.length : Int) ≠ 1 := by
      by_cases he : d.exp ≤ 0
      · have h6 : ¬(-6 < d.exp + (d.digits.length : Int)) := fun hgt => hsci ⟨he, hgt⟩
        omega
      · omega
    have hexpp : decimalExppart d
        = 'E' :: expChars (d.exp + (d.digits.length : Int) - 1) := by
      rw [decimalExppart, hdp, if_neg hld]
    rw [hexpp]
    by_cases h2 : (d.digits.length : Int) ≤ decimalDotplace d
    · -- single digit
      have hz : (decimalDotplace d - (d.digits.length : Int)).toNat = 0 := by
        rw [hdp] at h2 ⊢
        omega
      have hn1e : d.digits.length = 1 := by
        rw [hdp] at h2
        omega
      have hbody : decimalBody d = d.digits.map digitToChar := by
        rw [decimalBody, if_neg (by rw [hdp]; omega), if_pos h2, hz]
        simp
      rw [hbody]
      have htd1 := takeDigits_exact hdigs
        ('E' :: expChars (d.exp + (d.digits.length : Int) - 1))
        (Or.inr ⟨'E', _, rfl, by decide⟩)
      rw [parseDecimalBody, htd1]
      try dsimp only
      rw [parseDecimalAfterInt, if_neg (show ¬('E' : Char) = '.' by decide),
        if_neg (show ¬(d.digits.map digitToChar = []) by simpa using hne)]
      rw [parseDecimalTail_exp]
      rw [mkDecimal_eq sg d hne hlt hlead 0 _ [] _ (by simp) ?hexp4]
      case hexp4 =>
        rw [hn1e]
        simp only [List.length_nil]
        push_cast
        omega
    · -- leading digit, point, remaining digits
      have hbody : decimalBody d
          = (d.digits.map digitToChar).take (decimalDotplace d).toNat
            ++ '.' :: (d.digits.map digitToChar).drop (decimalDotplace d).toNat := by
        rw [decimalBody, if_neg (by rw [hdp]; omega), if_neg h2]
      rw [hbody]
      have htake : ∀ c ∈ (d.digits.map digitToChar).take (decimalDotplace d).toNat,
          isDigitChar c = true :=
        fun c hc => hdigs c (List.mem_of_mem_take hc)
      have hdrop : ∀ c ∈ (d.digits.map digitToChar).drop (decimalDotplace d).toNat,
          isDigitChar c = true :=
        fun c hc => hdigs c (List.mem_of_mem_drop hc)
      rw [List.append_assoc, List.cons_append]
      have htd1 := takeDigits_exact htake
        ('.' :: ((d.digits.map digitToChar).drop (decimalDotplace d).toNat
          ++ 'E' :: expChars (d.exp + (d.digits.length : Int) - 1)))
        (Or.inr ⟨'.', _, rfl, by decide⟩)
      rw [parseDecimalBody, htd1]
      try dsimp only
      rw [parseDecimalAfterInt, if_pos (show ('.' : Char) = '.' from rfl)]
      have htd2 := takeDigits_exact hdrop
        ('E' :: expChars (d.exp + (d.digits.length : Int) - 1))
        (Or.inr ⟨'E', _, rfl, by decide⟩)
      rw [htd2]
      try dsimp only
      have htne : (d.digits.map digitToChar).take (decimalDotplace d).toNat ≠ [] := by
        simp only [ne_eq, List.take_eq_nil_iff]
        push_neg
        constructor
        · rw [hdp]; omega
        · simpa using hne
      rw [if_neg (fun hand => htne hand.1)]
      rw [parseDecimalTail_exp]
      rw [mkDecimal_eq sg d hne hlt hlead 0 _ _ _ ?hsplit5 ?hexp5]
      case hsplit5 =>
        rw [List.take_append_drop]
        rfl
      case hexp5 =>
        simp only [List.length_drop, List.length_map]
        rw [hdp] at h2 ⊢
        push_cast
        omega

/-- Round trip of the decimal model: `Decimal(str(d))` recovers `d` for
every canonical finite decimal. -/
theorem parseDecimal_decimalStr (d : PyDecimal) (h : d.valid) :
    parseDecimal (decimalStr d) = Option.some d := by
  obtain ⟨hne, hlt, hlead⟩ := h
  obtain ⟨c0, t0, hct, hdig0⟩ := decimalBody_head d hne hlt
  cases hs : d.sign with
  | false =>
    have hrec : ({ sign := false, digits := d.digits, exp := d.exp } : PyDecimal)
        = d := by
      rw [← hs]
    rw [decimalStr, hs]
    simp only [Bool.false_eq_true, if_false, List.nil_append]
    rw [hct, List.cons_append]
    rw [parseDecimal,
      if_neg (isDigitChar_ne_char hdig0 (show isDigitChar '-' = false by decide)),
      if_neg (isDigitChar_ne_char hdig0 (show isDigitChar '+' = false by decide))]
    rw [← List.cons_append, ← hct]
    exact (parseDecimalBody_decimalStr false d hne hlt hlead).trans
      (congrArg Option.some hrec)
  | true =>
    have hrec : ({ sign := true, digits := d.digits, exp := d.exp } : PyDecimal)
        = d := by
      rw [← hs]
    rw [decimalStr, hs]
    rw [if_pos (rfl : (true : Bool) = true)]
    rw [List.append_assoc, List.singleton_append]
    rw [parseDecimal, if_pos (show ('-' : Char) = '-' from rfl)]
    exact (parseDecimalBody_decimalStr true d hne hlt hlead).trans
      (congrArg Option.some hrec)

/-- `grabDigits` takes exactly a digit run of its width. -/
theorem grabDigits_exact : ∀ (k : Nat) (ds rest : Str), ds.length = k →
    (∀ c ∈ ds, isDigitChar c = true) →
    grabDigits k (ds ++ rest) = Option.some (ds, rest) := by
  intro k
  induction k with
  | zero =>
    intro ds rest hlen _
    have hnil : ds = [] := List.length_eq_zero.mp hlen
    subst hnil
    rfl
  | succ k2 ih =>
    intro ds rest hlen hdig
    cases ds with
    | nil => simp at hlen
    | cons c ds2 =>
      rw [List.cons_append, grabDigits,
        if_pos (hdig c (List.mem_cons_self c ds2)),
        ih ds2 rest (by simpa using hlen)
          (fun x hx => hdig x (List.mem_cons_of_mem c hx))]
      rfl

/-- A padded number is all digit characters of its width. -/
theorem grabDigits_padNat {w n : Nat} (h1 : 1 ≤ w) (h : n < 10 ^ w)
    (rest : Str) :
    grabDigits w (padNat w n ++ rest) = Option.some (padNat w n, rest) :=
  grabDigits_exact w (padNat w n) rest
    (by rw [padNat]; exact padZeros_length (natToChars_length_le h1 h))
    (by rw [padNat]; exact padZeros_all_digits (natToChars_all_digits n))

/-- Padding does not change the numeric value. -/
theorem charsToNat_padNat (w n : Nat) : charsToNat (padNat w n) = n := by
  rw [padNat, charsToNat_padZeros, charsToNat_natToChars]

/-- The separator after each fixed-width field is consumed. -/
theorem expectChar_cons (c : Char) (r : Str) :
    expectChar c (c :: r) = Option.some r := by
  rw [expectChar, if_pos rfl]

/-- The fractional-seconds parser undoes the printer's optional
microsecond field, whenever the following offset field starts with a
sign or is empty. -/
theorem parseMicro_print (us : Nat) (hus : us ≤ 999999) (tail : Str)
    (htail : ∀ c t, tail = c :: t → (c = '+' ∨ c = '-')) :
    parseMicro ((if us = 0 then [] else '.' :: padNat 6 us) ++ tail)
      = Option.some (us, tail) := by
  by_cases hz : us = 0
  · subst hz
    rw [if_pos rfl, List.nil_append]
    cases tail with
    | nil => rfl
    | cons c t =>
      rcases htail c t rfl with h | h <;> subst h <;>
        rw [parseMicro, if_neg (by decide)]
  · have h6 : us < 10 ^ 6 := by
      have hp : (10 : Nat) ^ 6 = 1000000 := by norm_num
      omega
    rw [if_neg hz, List.cons_append, parseMicro,
      if_pos (show ('.' : Char) = '.' from rfl),
      grabDigits_padNat (by norm_num) h6 tail]
    simp only [Option.map_some']
    rw [charsToNat_padNat]

/-- The offset parser undoes the printer's optional `±HH:MM` field. -/
theorem parseIsoOffset_print (off : Option Int)
    (hoff : ∀ o, off = Option.some o → o.natAbs < 1440) :
    parseIsoOffset (isoOffsetOpt off) = Option.some off := by
  cases off with
  | none => rfl
  | some o =>
    have hlt : o.natAbs < 1440 := hoff o rfl
    have hp : (10 : Nat) ^ 2 = 100 := by norm_num
    have hhh : o.natAbs / 60 < 10 ^ 2 := by omega
    have hmm2 : o.natAbs % 60 < 10 ^ 2 := by omega
    have hgrab2 : grabDigits 2 (padNat 2 (o.natAbs % 60))
        = Option.some (padNat 2 (o.natAbs % 60), []) := by
      have h2 := grabDigits_padNat (by norm_num) hmm2 []
      rwa [List.append_nil] at h2
    have hcn1 : charsToNat (padNat 2 (o.natAbs % 60)) < 60 := by
      rw [charsToNat_padNat]
      omega
    have hcn2 : charsToNat (padNat 2 (o.natAbs / 60)) * 60
        + charsToNat (padNat 2 (o.natAbs % 60)) < 1440 := by
      rw [charsToNat_padNat, charsToNat_padNat]
      omega
    have hbody : ∀ c : Char, (c = '+' ∨ c = '-') → parseIsoOffset
          (c :: (padNat 2 (o.natAbs / 60) ++ ':' :: padNat 2 (o.natAbs % 60)))
        = Option.some (Option.some
            (if c = '-' then
              -((charsToNat (padNat 2 (o.natAbs / 60)) * 60
                + charsToNat (padNat 2 (o.natAbs % 60)) : Nat) : Int)
            else
              ((charsToNat (padNat 2 (o.natAbs / 60)) * 60
                + charsToNat (padNat 2 (o.natAbs % 60)) : Nat) : Int))) := by
      intro c hc
      rw [parseIsoOffset, if_pos hc,
        grabDigits_padNat (by norm_num) hhh (':' :: padNat 2 (o.natAbs % 60))]
      simp only [Option.some_bind]
      try dsimp only
      rw [expectChar_cons]
      simp only [Option.some_bind]
      rw [hgrab2]
      simp only [Option.some_bind]
      try dsimp only
      rw [if_pos (by exact ⟨by trivial, hcn1, hcn2⟩)]
    by_cases hneg : o < 0
    · rw [show isoOffsetOpt (Option.some o) = isoOffset o from rfl,
        isoOffset, if_pos hneg,
        hbody '-' (Or.inr rfl),
        if_pos (show ('-' : Char) = '-' from rfl),
        charsToNat_padNat, charsToNat_padNat]
      have hv : -((o.natAbs / 60 * 60 + o.natAbs % 60 : Nat) : Int) = o := by
        have hsplit : o.natAbs / 60 * 60 + o.natAbs % 60 = o.natAbs := by omega
        rw [hsplit]
        omega
      rw [hv]
    · rw [show isoOffsetOpt (Option.some o) = isoOffset o from rfl,
        isoOffset, if_neg hneg,
        hbody '+' (Or.inl rfl),
        if_neg (show ¬('+' : Char) = '-' by decide),
        charsToNat_padNat, charsToNat_padNat]
      have hv : ((o.natAbs / 60 * 60 + o.natAbs % 60 : Nat) : Int) = o := by
        have hsplit : o.natAbs / 60 * 60 + o.natAbs % 60 = o.natAbs := by omega
        rw [hsplit]
        omega
      rw [hv]

/-- Round trip of the datetime model: `fromisoformat` of `isoformat`
returns the original datetime. -/
theorem fromisoformat_isoformat (dt : PyDatetime) (h : dt.valid) :
    fromisoformat (isoformat dt) = Option.some dt := by
  obtain ⟨hy1, hy2, hm1, hm2, hd1, hd2, hhr, hmi, hsc, hus, hoff⟩ := h
  have hp4 : (10 : Nat) ^ 4 = 10000 := by norm_num
  have hp2 : (10 : Nat) ^ 2 = 100 := by norm_num
  have hdim : daysInMonth dt.year dt.month ≤ 31 := by
    rw [daysInMonth]
    split_ifs <;> omega
  have htail : ∀ c t, isoOffsetOpt dt.offset = c :: t → (c = '+' ∨ c = '-') := by
    intro c t hct
    cases ho : dt.offset with
    | none =>
      rw [ho] at hct
      exact absurd hct (by rw [show isoOffsetOpt Option.none = [] from rfl]; simp)
    | some o =>
      rw [ho, show isoOffsetOpt (Option.some o) = isoOffset o from rfl,
        isoOffset] at hct
      by_cases hneg : o < 0
      · rw [if_pos hneg] at hct
        cases hct
        exact Or.inr rfl
      · rw [if_neg hneg] at hct
        cases hct
        exact Or.inl rfl
  rw [isoformat, fromisoformat,
    grabDigits_padNat (by norm_num) (by omega) _]
  simp only [Option.some_bind]
  try dsimp only
  rw [expectChar_cons]
  simp only [Option.some_bind]
  rw [grabDigits_padNat (by norm_num) (by omega) _]
  simp only [Option.some_bind]
  try dsimp only
  rw [expectChar_cons]
  simp only [Option.some_bind]
  rw [grabDigits_padNat (by norm_num) (by omega) _]
  simp only [Option.some_bind]
  try dsimp only
  rw [expectChar_cons]
  simp only [Option.some_bind]
  rw [grabDigits_padNat (by norm_num) (by omega) _]
  simp only [Option.some_bind]
  try dsimp only
  rw [expectChar_cons]
  simp only [Option.some_bind]
  rw [grabDigits_padNat (by norm_num) (by omega) _]
  simp only [Option.some_bind]
  try dsimp only
  rw [expectChar_cons]
  simp only [Option.some_bind]
  rw [grabDigits_padNat (by norm_num) (by omega) _]
  simp only [Option.some_bind]
  try dsimp only
  rw [parseMicro_print dt.microsecond hus (isoOffsetOpt dt.offset) htail]
  simp only [Option.some_bind]
  try dsimp only
  rw [parseIsoOffset_print dt.offset hoff]
  simp only [Option.some_bind]
  try dsimp only
  rw [charsToNat_padNat, charsToNat_padNat, charsToNat_padNat,
    charsToNat_padNat, charsToNat_padNat, charsToNat_padNat]
  rw [mkDatetime,
    if_pos ⟨hy1, hy2, hm1, hm2, hd1, hd2, hhr, hmi, hsc, hus⟩]

/-- Element-wise decoding undoes element-wise encoding. -/
theorem mapM_decodeElem {α : Type} (enc : α → Str) (dec : Str → Option α)
    (hrt : ∀ x, dec (enc x) = Option.some x) (xs : List α) :
    (xs.map (fun x => Json.str (enc x))).mapM (ArrayEncoder.decodeElem dec)
      = Option.some xs := by
  induction xs with
  | nil => rfl
  | cons x l ih =>
    simp only [List.map_cons, List.mapM_cons,
      show ArrayEncoder.decodeElem dec (Json.str (enc x)) = dec (enc x)
        from rfl,
      hrt x, ih, Option.some_bind]
    rfl

/-- The `Nullable` wrapper round-trips, given a round-tripping inner
encoder. -/
theorem nullable_round_trip {α : Type} (enc : α → Str) (dec : Str → Option α)
    (hrt : ∀ x, dec (enc x) = Option.some x) (ox : Option α) :
    Nullable.decode dec (Nullable.encode enc ox) = Option.some ox := by
  cases ox with
  | none =>
    rw [Nullable.encode, Nullable.decode, pyJsonLoads_pyJsonDumps Json.null]
  | some x =>
    rw [Nullable.encode, Nullable.decode,
      pyJsonLoads_pyJsonDumps (Json.str (enc x))]
    try dsimp only
    rw [hrt x]
    rfl

/-- The `ArrayEncoder` round-trips element-wise, given a round-tripping
element encoder. -/
theorem array_round_trip {α : Type} (enc : α → Str) (dec : Str → Option α)
    (hrt : ∀ x, dec (enc x) = Option.some x) (xs : List α) :
    ArrayEncoder.decode dec (ArrayEncoder.encode enc xs)
      = Option.some xs := by
  rw [ArrayEncoder.encode, ArrayEncoder.decode,
    pyJsonLoads_pyJsonDumps (Json.arr (xs.map (fun x => Json.str (enc x))))]
  try dsimp only
  exact mapM_decodeElem enc dec hrt xs

/-- C3: every provided encoder round-trips on its valid domain —
`StringEncoder`, `IntEncoder`, `DecimalEncoder` (canonical finite
decimals), `DatetimeEncoder` (constructor-valid datetimes),
`JSONEncoder`, `EnumEncoder` (member names), and the `Nullable` and
`ArrayEncoder` wrappers over any round-tripping inner encoder, including
`None` under `Nullable`. -/
theorem C3_encoder_round_trips :
    (∀ s : Str, StringEncoder.decode (StringEncoder.encode s) = s)
    ∧ (∀ n : Int, IntEncoder.decode (IntEncoder.encode n) = Option.some n)
    ∧ (∀ d : PyDecimal, d.valid →
        DecimalEncoder.decode (DecimalEncoder.encode d) = Option.some d)
    ∧ (∀ dt : PyDatetime, dt.valid →
        DatetimeEncoder.decode (DatetimeEncoder.encode dt) = Option.some dt)
    ∧ (∀ v : Json, JSONEncoder.decode (JSONEncoder.encode v) = Option.some v)
    ∧ (∀ (names : List Str) (m : Str), m ∈ names →
        EnumEncoder.decode names (EnumEncoder.encode m) = Option.some m)
    ∧ (∀ (α : Type) (enc : α → Str) (dec : Str → Option α),
        (∀ x, dec (enc x) = Option.some x) →
          (∀ ox : Option α,
            Nullable.decode dec (Nullable.encode enc ox) = Option.some ox)
          ∧ (∀ xs : List α,
            ArrayEncoder.decode dec (ArrayEncoder.encode enc xs)
              = Option.some xs)) := by
  refine ⟨fun s => rfl, fun n => pyIntOfStr_pyStrOfInt n,
    fun d hd => parseDecimal_decimalStr d hd,
    fun dt hdt => fromisoformat_isoformat dt hdt,
    fun v => pyJsonLoads_pyJsonDumps v,
    fun names m hm => ?_,
    fun α enc dec hrt =>
      ⟨nullable_round_trip enc dec hrt, array_round_trip enc dec hrt⟩⟩
  rw [EnumEncoder.decode, EnumEncoder.encode, if_pos hm]

/-- Witness for C3 at concrete inputs: the decimal `1.5`, the aware
datetime `2024-02-29T13:45:30.123456+05:30`, the enum member `a` of
`{a, b}`, and the `Nullable`/`ArrayEncoder` wrappers over the integer
encoder at `None` and `[5, -3]`. -/
theorem C3_encoder_round_trips_witness :
    (PyDecimal.mk false [1, 5] (-1)).valid
    ∧ DecimalEncoder.decode (DecimalEncoder.encode (PyDecimal.mk false [1, 5] (-1)))
        = Option.some (PyDecimal.mk false [1, 5] (-1))
    ∧ (PyDatetime.mk 2024 2 29 13 45 30 123456 (Option.some 330)).valid
    ∧ DatetimeEncoder.decode (DatetimeEncoder.encode
          (PyDatetime.mk 2024 2 29 13 45 30 123456 (Option.some 330)))
        = Option.some (PyDatetime.mk 2024 2 29 13 45 30 123456 (Option.some 330))
    ∧ (['a'] : Str) ∈ [['a'], ['b']]
    ∧ EnumEncoder.decode [['a'], ['b']] (EnumEncoder.encode ['a'])
        = Option.some ['a']
    ∧ Nullable.decode IntEncoder.decode
          (Nullable.encode IntEncoder.encode Option.none)
        = Option.some Option.none
    ∧ ArrayEncoder.decode IntEncoder.decode
          (ArrayEncoder.encode IntEncoder.encode [(5 : Int), -3])
        = Option.some [(5 : Int), -3] := by
  have hdval : (PyDecimal.mk false [1, 5] (-1)).valid := by
    refine ⟨by decide, by decide, by decide⟩
  have hdtval : (PyDatetime.mk 2024 2 29 13 45 30 123456 (Option.some 330)).valid := by
    refine ⟨by decide, by decide, by decide, by decide, by decide, by decide,
      by decide, by decide, by decide, by decide, fun o ho => ?_⟩
    cases ho
    decide
  have hint : ∀ x : Int, IntEncoder.decode (IntEncoder.encode x) = Option.some x :=
    fun x => pyIntOfStr_pyStrOfInt x
  exact ⟨hdval,
    C3_encoder_round_trips.2.2.1 (PyDecimal.mk false [1, 5] (-1)) hdval,
    hdtval,
    C3_encoder_round_trips.2.2.2.1
      (PyDatetime.mk 2024 2 29 13 45 30 123456 (Option.some 330)) hdtval,
    by decide,
    C3_encoder_round_trips.2.2.2.2.2.1 [['a'], ['b']] ['a'] (by decide),
    (C3_encoder_round_trips.2.2.2.2.2.2 Int
      IntEncoder.encode IntEncoder.decode hint).1 Option.none,
    (C3_encoder_round_trips.2.2.2.2.2.2 Int
      IntEncoder.encode IntEncoder.decode hint).2 [(5 : Int), -3]⟩

/-- C2 counterexample to the original claim: writing Python `None`
(legal under `Nullable(StringEncoder)`) with no tenant context bound
stores `None` in the unencrypted slot and `NULL` in the encrypted slot,
so neither slot is non-null and the claimed exactly-one-slot invariant
fails. -/
theorem C2_counterexample_none_write_leaves_both_null :
    ¬ (encryption.prop_setter
        (fun v => match v with
          | PyVal.str s => Nullable.encode StringEncoder.encode (Option.some s)
          | _ => Nullable.encode StringEncoder.encode Option.none)
        (noContextEncryptor (fun s => s)) true
        { encrypted := Option.none, unencrypted := PyVal.none,
          beacon := Option.none }
        PyVal.none).exactlyOneSlot := by
  intro h
  rcases h with ⟨h1, -⟩ | ⟨-, h2⟩
  · exact h1 rfl
  · exact h2 rfl

end MicrocosmPG
